import Mathlib

/-!
Verification of the alignment-search and difference-highlighting engine of
the imgdiff repository (imgdiff.py).

Images are modelled as single-channel 8-bit grids (PIL mode L): a width, a
height and a total pixel function.  On such images `ImageChops.difference`
is the pointwise absolute difference and `convert('L')` is the identity, so
the diffing pipeline of the source is embedded exactly.  Wall-clock time is
modelled by a rational-valued oracle `clock : Nat -> Rat` giving the elapsed
time observed at the k-th call of `Progress.next`; the `Timeout` exception
is the `Except.error` branch.
-/

namespace Imgdiff

/-- A single-channel image: a grid of 8-bit pixel values.  The pixel
function is total; only the values at coordinates `i < width`,
`j < height` are meaningful. -/
structure Img where
  width : Nat
  height : Nat
  pix : Nat → Nat → Nat

/-- An image is valid when all its in-domain pixels are 8-bit values. -/
def Img.valid (im : Img) : Prop :=
  ∀ i < im.width, ∀ j < im.height, im.pix i j ≤ 255

instance : DecidablePred Img.valid := fun im =>
  inferInstanceAs (Decidable (∀ i < im.width, ∀ j < im.height, im.pix i j ≤ 255))

/-- Absolute difference of two natural numbers, as used both for pixel
differences (`ImageChops.difference`) and size deltas (`abs(w1 - w2)`). -/
def natAbsDiff (a b : Nat) : Nat := max a b - min a b

/-- Embedding of `img.crop((x, y, x + w, y + h))`. -/
def cropImg (im : Img) (x y w h : Nat) : Img :=
  { width := w, height := h, pix := fun i j => im.pix (x + i) (y + j) }

/-- Embedding of `ImageChops.difference(a, b).convert('L')` on mode-L
images of equal size: the pointwise absolute pixel difference. -/
def imageDiffL (a b : Img) : Img :=
  { width := a.width, height := a.height,
    pix := fun i j => natAbsDiff (a.pix i j) (b.pix i j) }

/-- Embedding of `ImageChops.darker(a, b)`: the pointwise minimum. -/
def darker (a b : Img) : Img :=
  { width := a.width, height := a.height,
    pix := fun i j => min (a.pix i j) (b.pix i j) }

/-- Embedding of `Image.new('L', (w, h), c)`: a constant image. -/
def newL (w h c : Nat) : Img :=
  { width := w, height := h, pix := fun _ _ => c }

/-- Embedding of `base.paste(src, (x, y))`: inside the pasted rectangle the
pixel comes from `src`, elsewhere from `base`. -/
def paste (base src : Img) (x y : Nat) : Img :=
  { width := base.width, height := base.height,
    pix := fun i j =>
      if x ≤ i ∧ i < x + src.width ∧ y ≤ j ∧ j < y + src.height then
        src.pix (i - x) (j - y)
      else base.pix i j }

/-- Embedding of `im.filter(ImageFilter.MaxFilter(sz))`: each output cell is
the maximum of the input over the `sz × sz` window centred there, clipped to
the image bounds (PIL expands the image at the borders before running the
rank filter; for a maximum filter the border policy is equivalent to
clipping the window). -/
def maxFilter (sz : Nat) (im : Img) : Img :=
  let r := sz / 2
  { width := im.width, height := im.height,
    pix := fun i j =>
      ((((List.range im.width).filter fun a => decide (i - r ≤ a) && decide (a ≤ i + r)).map
        fun a =>
          ((((List.range im.height).filter fun b => decide (j - r ≤ b) && decide (b ≤ j + r)).map
            fun b => im.pix a b).foldr max 0)).foldr max 0) }

/-- The cells of an image flattened to a list, column-major (outer index
`i < width`, inner index `j < height`). -/
def cellList (im : Img) : List Nat :=
  (List.range im.width).flatMap fun i => (List.range im.height).map fun j => im.pix i j

/-- Embedding of `diff.histogram()` for a mode-L image: the number of cells
holding the value `v` (meaningful for `v < 256`). -/
def histogram (im : Img) (v : Nat) : Nat := (cellList im).count v

/-- Embedding of `diff_badness`:
`sum(i * n for i, n in enumerate(diff.histogram()))`. -/
def diff_badness (im : Img) : Nat :=
  ((List.range 256).map fun v => v * histogram im v).sum

/-- Embedding of `tweak_diff`: the pointwise linear remap
`lambda i: opacity + i * (255 - opacity) // 255`. -/
def tweak_diff (im : Img) (opacity : Nat) : Img :=
  { width := im.width, height := im.height,
    pix := fun i j => opacity + im.pix i j * (255 - opacity) / 255 }

/-- Embedding of `diff(img1, img2, (x1, y1), (x2, y2))`: crop both images to
the overlap size `(min w1 w2, min h1 h2)` at the given alignments and take
the absolute pixel difference. -/
def diff (img1 img2 : Img) (a1 a2 : Nat × Nat) : Img :=
  let w := min img1.width img2.width
  let h := min img1.height img2.height
  imageDiffL (cropImg img1 a1.1 a1.2 w h) (cropImg img2 a2.1 a2.2 w h)

/-- Condition under which `Progress.next` raises `Timeout`:
`if self.timeout and time.time() - self.started > self.timeout`.  A zero
timeout is falsy in Python and disables the check. -/
def timerFires (timeout elapsed : ℚ) : Bool :=
  decide (timeout ≠ 0 ∧ timeout < elapsed)

/-- The state of the `Progress` object that is relevant to control flow:
the total unit count, the timeout threshold and the position counter. -/
structure Progress where
  total : Nat
  timeout : ℚ
  position : Nat

/-- Embedding of `Progress.next`: increment the position counter, then
raise `Timeout` when the timer fires (`elapsed` is the wall-clock time
since `self.started`).  The remaining body only emits status messages. -/
def Progress.next (p : Progress) (elapsed : ℚ) : Except Unit Progress :=
  let p' : Progress := { p with position := p.position + 1 }
  if timerFires p.timeout elapsed then .error () else .ok p'

/-- An alignment `((x1, y1), (x2, y2))` as passed to `diff`. -/
abbrev Alignment := (Nat × Nat) × (Nat × Nat)

/-- The alignment produced at grid position `(x, y)`: on each axis the
wider (resp. taller) image is the one whose shift ranges while the other's
shift is forced to 0 (`x1, x2 = x, 0 if w1 > w2 else 0, x`, and likewise
for `y`). -/
def offAt (img1 img2 : Img) (x y : Nat) : Alignment :=
  ((if img1.width > img2.width then x else 0,
    if img1.height > img2.height then y else 0),
   (if img1.width > img2.width then 0 else x,
    if img1.height > img2.height then 0 else y))

/-- The list of alignments enumerated by `best_diff`, in iteration order:
`x` is the outer loop over `range(abs(w1 - w2) + 1)`, `y` the inner loop
over `range(abs(h1 - h2) + 1)`. -/
def offsets (img1 img2 : Img) : List Alignment :=
  let xr := natAbsDiff img1.width img2.width + 1
  let yr := natAbsDiff img1.height img2.height + 1
  (List.range xr).flatMap fun x =>
    (List.range yr).map fun y => offAt img1 img2 x y

/-- The main loop of `best_diff`, threading the progress position, the best
difference map found so far (`none` is the initial sentinel) and the best
badness value.  `clock k` is the elapsed time observed at the k-th
`p.next()` call; `Except.error` is the escaping `Timeout` exception. -/
def bestLoop (img1 img2 : Img) (clock : Nat → ℚ) (timeout : ℚ) :
    List Alignment → Nat → Option (Img × Alignment) → Nat →
    Except Unit (Option (Img × Alignment) × Nat)
  | [], pos, best, _ => .ok (best, pos)
  | o :: rest, pos, best, best_value =>
    if timerFires timeout (clock (pos + 1)) then .error ()
    else
      let this := diff img1 img2 o.1 o.2
      let this_value := diff_badness this
      if this_value < best_value then
        bestLoop img1 img2 clock timeout rest (pos + 1) (some (this, o)) this_value
      else
        bestLoop img1 img2 clock timeout rest (pos + 1) best best_value

/-- Embedding of `best_diff`: sweep the offset grid keeping the alignment
of minimal badness, starting from the sentinel `none` with initial best
value `255 * w * h + 1`.  The final progress position is returned alongside
the result. -/
def best_diff (img1 img2 : Img) (clock : Nat → ℚ) (timeout : ℚ) :
    Except Unit (Option (Img × Alignment) × Nat) :=
  let w := min img1.width img2.width
  let h := min img1.height img2.height
  bestLoop img1 img2 clock timeout (offsets img1 img2) 0 none (255 * w * h + 1)

/-- Embedding of `simple_highlight`: run `best_diff`; on `Timeout` return
no masks; otherwise smooth the winning map with `MaxFilter(9)`, remap it
with `tweak_diff`, and paste it into two fully-opaque masks of the input
images' sizes at the winning alignments.  (If the sentinel survived the
sweep the Python code would crash unpacking it; that branch is proved
unreachable, and is mapped to `none` here.) -/
def simple_highlight (img1 img2 : Img) (clock : Nat → ℚ) (timeout : ℚ)
    (opacity : Nat) : Option (Img × Img) :=
  match best_diff img1 img2 clock timeout with
  | .error _ => none
  | .ok (none, _) => none
  | .ok (some (d, a), _) =>
    let d2 := tweak_diff (maxFilter 9 d) opacity
    let mask1 := paste (newL img1.width img1.height 0xff) d2 a.1.1 a.1.2
    let mask2 := paste (newL img2.width img2.height 0xff) d2 a.2.1 a.2.2
    some (mask1, mask2)

/-- Embedding of `ImageChops.offset(im, dx, dy)`: a cyclic shift, where the
output pixel at `(i, j)` comes from `(i - dx, j - dy)` reduced modulo the
image dimensions. -/
def offsetImg (im : Img) (dx dy : Int) : Img :=
  { width := im.width, height := im.height,
    pix := fun i j =>
      im.pix ((((i : Int) - dx) % (im.width : Int)).toNat)
             ((((j : Int) - dy) % (im.height : Int)).toNat) }

/-- Embedding of `Image.new('RGB', (W, H), bg)` followed by
`paste(img, (0, 0))`: the image padded to a `W × H` canvas with background
colour `bg`. -/
def padCanvas (im : Img) (W H bg : Nat) : Img :=
  { width := W, height := H,
    pix := fun i j => if i < im.width ∧ j < im.height then im.pix i j else bg }

/-- The first padded canvas of `slow_highlight`: `img1` pasted at the
origin of a `(max w1 w2, max h1 h2)` background-filled canvas. -/
def pimg1 (img1 img2 : Img) (bg : Nat) : Img :=
  padCanvas img1 (max img1.width img2.width) (max img1.height img2.height) bg

/-- The second padded canvas of `slow_highlight`: `img2` pasted at the
origin of a `(max w1 w2, max h1 h2)` background-filled canvas. -/
def pimg2 (img1 img2 : Img) (bg : Nat) : Img :=
  padCanvas img2 (max img1.width img2.width) (max img1.height img2.height) bg

/-- The mutable state of the `slow_highlight` sweep: the two padded
canvases, the running difference accumulator and the progress position. -/
structure SlowState where
  p1 : Img
  p2 : Img
  acc : Img
  pos : Nat

/-- One pass of the inner (`y`) loop of `slow_highlight`, running `n`
iterations: advance the timer, difference the canvases, max-filter with
`MaxFilter(7)`, fold into the accumulator with `ImageChops.darker`, then
cyclically shift the taller image's canvas down by one. -/
def slowInner (img1 img2 : Img) (clock : Nat → ℚ) (timeout : ℚ) :
    Nat → SlowState → Except Unit SlowState
  | 0, s => .ok s
  | n + 1, s =>
    if timerFires timeout (clock (s.pos + 1)) then .error ()
    else
      let this := maxFilter 7 (imageDiffL s.p1 s.p2)
      let acc := darker s.acc this
      if img1.height > img2.height then
        slowInner img1 img2 clock timeout n
          { p1 := s.p1, p2 := offsetImg s.p2 0 1, acc := acc, pos := s.pos + 1 }
      else
        slowInner img1 img2 clock timeout n
          { p1 := offsetImg s.p1 0 1, p2 := s.p2, acc := acc, pos := s.pos + 1 }

/-- The end-of-inner-pass resets of `slow_highlight`: the y-shift of the
moving canvas is undone by `offset(0, -yr)` and the wider image's canvas is
cyclically shifted right by one. -/
def slowReset (img1 img2 : Img) (yr : Nat) (s1 : SlowState) : SlowState :=
  let s2 :=
    if img1.height > img2.height then
      { s1 with p2 := offsetImg s1.p2 0 (-(yr : Int)) }
    else
      { s1 with p1 := offsetImg s1.p1 0 (-(yr : Int)) }
  if img1.width > img2.width then
    { s2 with p2 := offsetImg s2.p2 1 0 }
  else
    { s2 with p1 := offsetImg s2.p1 1 0 }

/-- The outer (`x`) loop of `slow_highlight`, running `n` iterations of
`yr` inner steps each, applying the shift resets after each inner pass. -/
def slowOuter (img1 img2 : Img) (clock : Nat → ℚ) (timeout : ℚ) (yr : Nat) :
    Nat → SlowState → Except Unit SlowState
  | 0, s => .ok s
  | n + 1, s =>
    match slowInner img1 img2 clock timeout yr s with
    | .error e => .error e
    | .ok s1 => slowOuter img1 img2 clock timeout yr n (slowReset img1 img2 yr s1)

/-- The initial state of the `slow_highlight` sweep: both images padded to
the `(max w1 w2, max h1 h2)` canvas over the background colour, and the
accumulator initialized to the all-255 (maximally different) image. -/
def slowInit (img1 img2 : Img) (bg : Nat) : SlowState :=
  { p1 := pimg1 img1 img2 bg,
    p2 := pimg2 img1 img2 bg,
    acc := newL (max img1.width img2.width) (max img1.height img2.height) 255,
    pos := 0 }

/-- Embedding of `slow_highlight`: sweep the full offset grid accumulating
the pointwise minimum of the smoothed canvas differences; on `Timeout`
return no masks; otherwise smooth the accumulator with `MaxFilter(5)`, crop
it to each image's own size and remap each crop with `tweak_diff`. -/
def slow_highlight (img1 img2 : Img) (bg : Nat) (clock : Nat → ℚ)
    (timeout : ℚ) (opacity : Nat) : Option (Img × Img) :=
  let xr := natAbsDiff img1.width img2.width + 1
  let yr := natAbsDiff img1.height img2.height + 1
  match slowOuter img1 img2 clock timeout yr xr (slowInit img1 img2 bg) with
  | .error _ => none
  | .ok s =>
    let d := maxFilter 5 s.acc
    let diff1 := cropImg d 0 0 img1.width img1.height
    let diff2 := cropImg d 0 0 img2.width img2.height
    some (tweak_diff diff1 opacity, tweak_diff diff2 opacity)

/-- The smoothed full-canvas difference of the two padded canvases after
cyclic shifts `(sx1, sy1)` and `(sx2, sy2)`: exactly the map that one inner
step of the thorough sweep folds into its accumulator when the canvases
carry those accumulated shifts. -/
def shiftedThis (img1 img2 : Img) (bg : Nat) (sx1 sy1 sx2 sy2 : Int) : Img :=
  maxFilter 7 (imageDiffL
    (offsetImg (pimg1 img1 img2 bg) sx1 sy1)
    (offsetImg (pimg2 img1 img2 bg) sx2 sy2))

/-- The smoothed full-canvas difference the thorough sweep folds into its
accumulator at grid offset `(x, y)`: the wider image's canvas carries the
x-shift and the taller image's canvas carries the y-shift. -/
def slowThisAt (img1 img2 : Img) (bg : Nat) (x y : Nat) : Img :=
  shiftedThis img1 img2 bg
    (if img1.width > img2.width then 0 else (x : Int))
    (if img1.height > img2.height then 0 else (y : Int))
    (if img1.width > img2.width then (x : Int) else 0)
    (if img1.height > img2.height then (y : Int) else 0)

/-! Helper lemmas about sums, counts and the badness function. -/

theorem listRangeMapSum (f : Nat → Nat) : ∀ n : Nat,
    ((List.range n).map f).sum = ∑ v ∈ Finset.range n, f v
  | 0 => rfl
  | n + 1 => by
    rw [List.range_succ, List.map_append, List.sum_append, Finset.sum_range_succ,
      listRangeMapSum f n]
    simp

theorem sumFlatMap {α : Type} (f : α → List Nat) : ∀ l : List α,
    (l.flatMap f).sum = (l.map fun a => (f a).sum).sum
  | [] => rfl
  | a :: t => by
    rw [List.flatMap_cons, List.sum_append, List.map_cons, List.sum_cons, sumFlatMap f t]

theorem countWeightedSum : ∀ l : List Nat, (∀ a ∈ l, a < 256) →
    (∑ v ∈ Finset.range 256, v * l.count v) = l.sum
  | [], _ => by simp
  | a :: t, h => by
    have ht : ∀ b ∈ t, b < 256 := fun b hb => h b (List.mem_cons_of_mem a hb)
    have ha : a < 256 := h a (List.mem_cons_self a t)
    have : ∀ v, (a :: t).count v = t.count v + if v = a then 1 else 0 := by
      intro v
      rw [List.count_cons]
      by_cases hva : v = a
      · subst hva; simp
      · simp [hva, beq_iff_eq, Ne.symm hva]
    simp only [this, Nat.mul_add, Finset.sum_add_distrib, countWeightedSum t ht,
      List.sum_cons, mul_ite, Nat.mul_one, Nat.mul_zero]
    rw [Finset.sum_ite_eq' (Finset.range 256) a (fun v => v)]
    simp [Finset.mem_range.mpr ha, Nat.add_comm]

theorem memCellList (im : Img) (a : Nat) :
    a ∈ cellList im ↔ ∃ i < im.width, ∃ j < im.height, a = im.pix i j := by
  simp only [cellList, List.mem_flatMap, List.mem_map, List.mem_range]
  constructor
  · rintro ⟨i, hi, j, hj, rfl⟩
    exact ⟨i, hi, j, hj, rfl⟩
  · rintro ⟨i, hi, j, hj, rfl⟩
    exact ⟨i, hi, j, hj, rfl⟩

theorem cellListSum (im : Img) :
    (cellList im).sum = ∑ i ∈ Finset.range im.width, ∑ j ∈ Finset.range im.height, im.pix i j := by
  rw [cellList, sumFlatMap, listRangeMapSum]
  exact Finset.sum_congr rfl fun i _ => listRangeMapSum _ _

theorem badnessEqCellSum (im : Img) (h : im.valid) :
    diff_badness im =
      ∑ i ∈ Finset.range im.width, ∑ j ∈ Finset.range im.height, im.pix i j := by
  rw [diff_badness, listRangeMapSum, ← cellListSum]
  refine countWeightedSum (cellList im) ?_
  intro a ha
  obtain ⟨i, hi, j, hj, rfl⟩ := (memCellList im a).1 ha
  exact Nat.lt_succ_of_le (h i hi j hj)

theorem badnessLe (im : Img) (h : im.valid) :
    diff_badness im ≤ 255 * im.width * im.height := by
  rw [badnessEqCellSum im h]
  calc ∑ i ∈ Finset.range im.width, ∑ j ∈ Finset.range im.height, im.pix i j
      ≤ ∑ _i ∈ Finset.range im.width, ∑ _j ∈ Finset.range im.height, 255 := by
        refine Finset.sum_le_sum fun i hi => Finset.sum_le_sum fun j hj => ?_
        exact h i (Finset.mem_range.mp hi) j (Finset.mem_range.mp hj)
    _ = 255 * im.width * im.height := by
        simp [Finset.sum_const, Finset.card_range]
        ring

theorem badnessEqZeroIff (im : Img) (h : im.valid) :
    diff_badness im = 0 ↔ ∀ i < im.width, ∀ j < im.height, im.pix i j = 0 := by
  rw [badnessEqCellSum im h]
  rw [Finset.sum_eq_zero_iff]
  constructor
  · intro hz i hi j hj
    have := hz i (Finset.mem_range.mpr hi)
    rw [Finset.sum_eq_zero_iff] at this
    exact this j (Finset.mem_range.mpr hj)
  · intro hz i hi
    rw [Finset.sum_eq_zero_iff]
    intro j hj
    exact hz i (Finset.mem_range.mp hi) j (Finset.mem_range.mp hj)

/-! Helper lemmas about the offset grid. -/

theorem gridLength {α : Type} (f : Nat → Nat → α) (n : Nat) : ∀ m : Nat,
    ((List.range m).flatMap fun x => (List.range n).map (f x)).length = m * n
  | 0 => by simp
  | m + 1 => by
    rw [List.range_succ, List.flatMap_append, List.length_append, gridLength f n m]
    simp [Nat.succ_mul]

theorem gridGet {α : Type} (f : Nat → Nat → α) (n : Nat) : ∀ m x y : Nat, x < m → y < n →
    ((List.range m).flatMap fun i => (List.range n).map (f i))[x * n + y]? = some (f x y)
  | 0, x, y, hx, _ => absurd hx (Nat.not_lt_zero x)
  | m + 1, x, y, hx, hy => by
    rw [List.range_succ, List.flatMap_append]
    rcases Nat.lt_or_ge x m with h | h
    · have hlen : x * n + y < ((List.range m).flatMap fun i => List.map (f i) (List.range n)).length := by
        rw [gridLength f n m]
        have h1 : (x + 1) * n ≤ m * n := Nat.mul_le_mul_right n (by omega)
        have h2 : (x + 1) * n = x * n + n := Nat.succ_mul x n
        omega
      rw [List.getElem?_append, if_pos hlen]
      exact gridGet f n m x y h hy
    · have hxm : x = m := by omega
      subst hxm
      have hlen : ¬ (x * n + y <
          ((List.range x).flatMap fun i => List.map (f i) (List.range n)).length) := by
        rw [gridLength f n x]
        omega
      rw [List.getElem?_append, if_neg hlen, gridLength f n x, Nat.add_sub_cancel_left]
      simp [List.getElem?_map, hy]

theorem gridMem {α : Type} (f : Nat → Nat → α) (m n : Nat) (a : α) :
    a ∈ ((List.range m).flatMap fun x => (List.range n).map (f x)) ↔
      ∃ x < m, ∃ y < n, a = f x y := by
  simp only [List.mem_flatMap, List.mem_map, List.mem_range]
  constructor
  · rintro ⟨x, hx, y, hy, rfl⟩
    exact ⟨x, hx, y, hy, rfl⟩
  · rintro ⟨x, hx, y, hy, rfl⟩
    exact ⟨x, hx, y, hy, rfl⟩

theorem offsetsLength (img1 img2 : Img) :
    (offsets img1 img2).length =
      (natAbsDiff img1.width img2.width + 1) * (natAbsDiff img1.height img2.height + 1) :=
  gridLength _ _ _

theorem memOffsets (img1 img2 : Img) (o : Alignment) :
    o ∈ offsets img1 img2 ↔
      ∃ x < natAbsDiff img1.width img2.width + 1,
        ∃ y < natAbsDiff img1.height img2.height + 1, o = offAt img1 img2 x y :=
  gridMem _ _ _ o

/-- Range bounds for any enumerated alignment: on each axis the shift never
pushes the overlap window out of either image. -/
theorem offsetsBounds (img1 img2 : Img) (o : Alignment) (ho : o ∈ offsets img1 img2) :
    o.1.1 + min img1.width img2.width ≤ img1.width ∧
    o.2.1 + min img1.width img2.width ≤ img2.width ∧
    o.1.2 + min img1.height img2.height ≤ img1.height ∧
    o.2.2 + min img1.height img2.height ≤ img2.height := by
  obtain ⟨x, hx, y, hy, rfl⟩ := (memOffsets img1 img2 o).1 ho
  unfold natAbsDiff at hx hy
  unfold offAt
  refine ⟨?_, ?_, ?_, ?_⟩
  · by_cases hw : img1.width > img2.width <;> simp [hw] <;> omega
  · by_cases hw : img1.width > img2.width <;> simp [hw] <;> omega
  · by_cases hh : img1.height > img2.height <;> simp [hh] <;> omega
  · by_cases hh : img1.height > img2.height <;> simp [hh] <;> omega

theorem diffWidth (img1 img2 : Img) (a1 a2 : Nat × Nat) :
    (diff img1 img2 a1 a2).width = min img1.width img2.width := rfl

theorem diffHeight (img1 img2 : Img) (a1 a2 : Nat × Nat) :
    (diff img1 img2 a1 a2).height = min img1.height img2.height := rfl

theorem natAbsDiffLe (a b : Nat) (c : Nat) (ha : a ≤ c) (hb : b ≤ c) : natAbsDiff a b ≤ c := by
  unfold natAbsDiff
  omega

/-- The difference map at any enumerated alignment of two valid images is a
valid (8-bit) image. -/
theorem diffValid (img1 img2 : Img) (h1 : img1.valid) (h2 : img2.valid)
    (o : Alignment) (ho : o ∈ offsets img1 img2) : (diff img1 img2 o.1 o.2).valid := by
  obtain ⟨b1, b2, b3, b4⟩ := offsetsBounds img1 img2 o ho
  intro i hi j hj
  rw [diffWidth] at hi
  rw [diffHeight] at hj
  show natAbsDiff (img1.pix (o.1.1 + i) (o.1.2 + j)) (img2.pix (o.2.1 + i) (o.2.2 + j)) ≤ 255
  refine natAbsDiffLe _ _ 255 ?_ ?_
  · exact h1 _ (by omega) _ (by omega)
  · exact h2 _ (by omega) _ (by omega)

/-! Helper lemmas about the fast-mode search loop. -/

theorem bestLoopComplete (img1 img2 : Img) (clock : Nat → ℚ) (timeout : ℚ) :
    ∀ (l : List Alignment) (pos : Nat) (best : Option (Img × Alignment)) (bv : Nat),
      (∀ k, pos < k → k ≤ pos + l.length → timerFires timeout (clock k) = false) →
      ∃ r, bestLoop img1 img2 clock timeout l pos best bv = .ok (r, pos + l.length) ∧
        ((best.isSome = true ∨ ∃ o ∈ l, diff_badness (diff img1 img2 o.1 o.2) < bv) →
          r.isSome = true)
  | [], pos, best, bv, _ => by
    refine ⟨best, by simp [bestLoop], ?_⟩
    rintro (h | ⟨o, ho, _⟩)
    · exact h
    · cases ho
  | o :: rest, pos, best, bv, hnf => by
    have hfire : timerFires timeout (clock (pos + 1)) = false :=
      hnf (pos + 1) (by omega) (by simp)
    have hnf' : ∀ k, pos + 1 < k → k ≤ pos + 1 + rest.length →
        timerFires timeout (clock k) = false := by
      intro k h1 h2
      exact hnf k (by omega) (by simp; omega)
    by_cases hlt : diff_badness (diff img1 img2 o.1 o.2) < bv
    · obtain ⟨r, hr, hsome⟩ := bestLoopComplete img1 img2 clock timeout rest (pos + 1)
        (some (diff img1 img2 o.1 o.2, o)) (diff_badness (diff img1 img2 o.1 o.2)) hnf'
      refine ⟨r, ?_, fun _ => hsome (Or.inl rfl)⟩
      rw [bestLoop, hfire]
      simp only [Bool.false_eq_true, if_false, hlt, if_true]
      rw [hr]
      simp [Nat.add_assoc, Nat.add_comm 1 rest.length]
    · obtain ⟨r, hr, hsome⟩ := bestLoopComplete img1 img2 clock timeout rest (pos + 1)
        best bv hnf'
      refine ⟨r, ?_, ?_⟩
      · rw [bestLoop, hfire]
        simp only [Bool.false_eq_true, if_false, hlt, if_true]
        rw [hr]
        simp [Nat.add_assoc, Nat.add_comm 1 rest.length]
      · rintro (h | ⟨o', ho', hb⟩)
        · exact hsome (Or.inl h)
        · rcases List.mem_cons.mp ho' with rfl | ho'
          · exact absurd hb hlt
          · exact hsome (Or.inr ⟨o', ho', hb⟩)

theorem bestLoopFire (img1 img2 : Img) (clock : Nat → ℚ) (timeout : ℚ) :
    ∀ (l : List Alignment) (pos : Nat) (best : Option (Img × Alignment)) (bv : Nat),
      (∃ k, pos < k ∧ k ≤ pos + l.length ∧ timerFires timeout (clock k) = true) →
      bestLoop img1 img2 clock timeout l pos best bv = .error ()
  | [], pos, best, bv, ⟨k, h1, h2, _⟩ => by
    simp at h2
    omega
  | o :: rest, pos, best, bv, ⟨k, h1, h2, hf⟩ => by
    by_cases hfire : timerFires timeout (clock (pos + 1)) = true
    · rw [bestLoop, hfire]
      simp
    · have hk : k ≠ pos + 1 := fun h => hfire (h ▸ hf)
      have hrec : ∃ k, pos + 1 < k ∧ k ≤ pos + 1 + rest.length ∧
          timerFires timeout (clock k) = true := by
        refine ⟨k, by omega, by simp at h2; omega, hf⟩
      rw [bestLoop, if_neg hfire]
      by_cases hlt : diff_badness (diff img1 img2 o.1 o.2) < bv
      · simp only [hlt, if_true]
        exact bestLoopFire img1 img2 clock timeout rest (pos + 1) _ _ hrec
      · simp only [hlt, if_false]
        exact bestLoopFire img1 img2 clock timeout rest (pos + 1) _ _ hrec

/-! Helper lemmas about the thorough-mode search loop's control flow. -/

theorem slowInnerComplete (img1 img2 : Img) (clock : Nat → ℚ) (timeout : ℚ) :
    ∀ (n : Nat) (s : SlowState),
      (∀ k, s.pos < k → k ≤ s.pos + n → timerFires timeout (clock k) = false) →
      ∃ s', slowInner img1 img2 clock timeout n s = .ok s' ∧ s'.pos = s.pos + n
  | 0, s, _ => ⟨s, rfl, by omega⟩
  | n + 1, s, hnf => by
    have hfire : timerFires timeout (clock (s.pos + 1)) = false :=
      hnf (s.pos + 1) (by omega) (by omega)
    have hnf' : ∀ (t : SlowState), t.pos = s.pos + 1 →
        ∀ k, t.pos < k → k ≤ t.pos + n → timerFires timeout (clock k) = false := by
      intro t ht k h1 h2
      exact hnf k (by omega) (by omega)
    rw [slowInner, hfire]
    simp only [Bool.false_eq_true, if_false]
    by_cases hh : img1.height > img2.height
    · simp only [hh, if_true]
      obtain ⟨s', hs', hpos⟩ := slowInnerComplete img1 img2 clock timeout n
        { p1 := s.p1, p2 := offsetImg s.p2 0 1,
          acc := darker s.acc (maxFilter 7 (imageDiffL s.p1 s.p2)), pos := s.pos + 1 }
        (hnf' _ rfl)
      exact ⟨s', hs', by simp at hpos; omega⟩
    · simp only [hh, if_false]
      obtain ⟨s', hs', hpos⟩ := slowInnerComplete img1 img2 clock timeout n
        { p1 := offsetImg s.p1 0 1, p2 := s.p2,
          acc := darker s.acc (maxFilter 7 (imageDiffL s.p1 s.p2)), pos := s.pos + 1 }
        (hnf' _ rfl)
      exact ⟨s', hs', by simp at hpos; omega⟩

theorem slowInnerFire (img1 img2 : Img) (clock : Nat → ℚ) (timeout : ℚ) :
    ∀ (n : Nat) (s : SlowState),
      (∃ k, s.pos < k ∧ k ≤ s.pos + n ∧ timerFires timeout (clock k) = true) →
      slowInner img1 img2 clock timeout n s = .error ()
  | 0, s, ⟨k, h1, h2, _⟩ => by omega
  | n + 1, s, ⟨k, h1, h2, hf⟩ => by
    by_cases hfire : timerFires timeout (clock (s.pos + 1)) = true
    · rw [slowInner, hfire]
      simp
    · have hk : k ≠ s.pos + 1 := fun h => hfire (h ▸ hf)
      rw [slowInner, if_neg hfire]
      by_cases hh : img1.height > img2.height
      · simp only [hh, if_true]
        exact slowInnerFire img1 img2 clock timeout n _ ⟨k, by simp; omega, by simp; omega, hf⟩
      · simp only [hh, if_false]
        exact slowInnerFire img1 img2 clock timeout n _ ⟨k, by simp; omega, by simp; omega, hf⟩

theorem slowResetPos (img1 img2 : Img) (yr : Nat) (s1 : SlowState) :
    (slowReset img1 img2 yr s1).pos = s1.pos := by
  rw [slowReset]
  by_cases hw : img1.width > img2.width <;> by_cases hh : img1.height > img2.height <;>
    simp [hw, hh]

theorem slowOuterComplete (img1 img2 : Img) (clock : Nat → ℚ) (timeout : ℚ) (yr : Nat) :
    ∀ (n : Nat) (s : SlowState),
      (∀ k, s.pos < k → k ≤ s.pos + n * yr → timerFires timeout (clock k) = false) →
      ∃ s', slowOuter img1 img2 clock timeout yr n s = .ok s' ∧ s'.pos = s.pos + n * yr
  | 0, s, _ => ⟨s, rfl, by omega⟩
  | n + 1, s, hnf => by
    have hmul : (n + 1) * yr = yr + n * yr := by
      rw [Nat.succ_mul]
      omega
    obtain ⟨s1, hs1, hpos1⟩ := slowInnerComplete img1 img2 clock timeout yr s
      (fun k h1 h2 => hnf k h1 (by omega))
    rw [slowOuter, hs1]
    have hpos3 : (slowReset img1 img2 yr s1).pos = s.pos + yr := by
      rw [slowResetPos img1 img2 yr s1]
      omega
    obtain ⟨s', hs', hpos'⟩ := slowOuterComplete img1 img2 clock timeout yr n
      (slowReset img1 img2 yr s1) (fun k h1 h2 => hnf k (by omega) (by omega))
    exact ⟨s', hs', by omega⟩

theorem slowOuterFire (img1 img2 : Img) (clock : Nat → ℚ) (timeout : ℚ) (yr : Nat) :
    ∀ (n : Nat) (s : SlowState),
      (∃ k, s.pos < k ∧ k ≤ s.pos + n * yr ∧ timerFires timeout (clock k) = true) →
      slowOuter img1 img2 clock timeout yr n s = .error ()
  | 0, s, ⟨k, h1, h2, _⟩ => by simp at h2; omega
  | n + 1, s, ⟨k, h1, h2, hf⟩ => by
    have hmul : (n + 1) * yr = yr + n * yr := by
      rw [Nat.succ_mul]
      omega
    by_cases hin : ∃ k, s.pos < k ∧ k ≤ s.pos + yr ∧ timerFires timeout (clock k) = true
    · rw [slowOuter, slowInnerFire img1 img2 clock timeout yr s hin]
    · push_neg at hin
      have hnfin : ∀ k, s.pos < k → k ≤ s.pos + yr → timerFires timeout (clock k) = false := by
        intro k hk1 hk2
        rcases Bool.eq_false_or_eq_true (timerFires timeout (clock k)) with h | h
        · exact absurd h (hin k hk1 hk2)
        · exact h
      obtain ⟨s1, hs1, hpos1⟩ := slowInnerComplete img1 img2 clock timeout yr s hnfin
      rw [slowOuter, hs1]
      have hklarge : s.pos + yr < k := by
        rcases Nat.lt_or_ge (s.pos + yr) k with h | h
        · exact h
        · exact absurd hf (by simpa using hin k h1 h)
      refine slowOuterFire img1 img2 clock timeout yr n _ ⟨k, ?_, ?_, hf⟩
      · rw [slowResetPos img1 img2 yr s1]
        omega
      · rw [slowResetPos img1 img2 yr s1]
        omega

/-! Claim theorems. -/

/-- C4: for every difference map (a valid 8-bit image), `diff_badness` — the
histogram-weighted sum of value times count — equals the sum of all cell
magnitudes; consequently it is 0 iff every cell is 0, is at most
`255 * width * height`, and is monotonically non-decreasing when any single
cell's magnitude increases (all other cells unchanged). -/
theorem claimC4_badness (im : Img) (hv : im.valid) :
    diff_badness im =
      (∑ i ∈ Finset.range im.width, ∑ j ∈ Finset.range im.height, im.pix i j) ∧
    (diff_badness im = 0 ↔ ∀ i < im.width, ∀ j < im.height, im.pix i j = 0) ∧
    diff_badness im ≤ 255 * im.width * im.height ∧
    (∀ (im' : Img) (i0 j0 : Nat), im'.width = im.width → im'.height = im.height →
      im'.valid →
      (∀ i < im.width, ∀ j < im.height, (i, j) ≠ (i0, j0) → im'.pix i j = im.pix i j) →
      im.pix i0 j0 ≤ im'.pix i0 j0 →
      diff_badness im ≤ diff_badness im') := by
  refine ⟨badnessEqCellSum im hv, badnessEqZeroIff im hv, badnessLe im hv, ?_⟩
  intro im' i0 j0 hw hh hv' hagree hle
  rw [badnessEqCellSum im hv, badnessEqCellSum im' hv', hw, hh]
  refine Finset.sum_le_sum fun i hi => Finset.sum_le_sum fun j hj => ?_
  by_cases hij : (i, j) = (i0, j0)
  · obtain ⟨rfl, rfl⟩ : i = i0 ∧ j = j0 := by
      simpa [Prod.ext_iff] using hij
    exact hle
  · rw [hagree i (Finset.mem_range.mp hi) j (Finset.mem_range.mp hj) hij]

theorem claimC4_badness_witness :
    (newL 2 2 3).valid ∧
    (diff_badness (newL 2 2 3) =
      (∑ i ∈ Finset.range (newL 2 2 3).width,
        ∑ j ∈ Finset.range (newL 2 2 3).height, (newL 2 2 3).pix i j) ∧
    (diff_badness (newL 2 2 3) = 0 ↔
      ∀ i < (newL 2 2 3).width, ∀ j < (newL 2 2 3).height, (newL 2 2 3).pix i j = 0) ∧
    diff_badness (newL 2 2 3) ≤ 255 * (newL 2 2 3).width * (newL 2 2 3).height ∧
    (∀ (im' : Img) (i0 j0 : Nat), im'.width = (newL 2 2 3).width →
      im'.height = (newL 2 2 3).height → im'.valid →
      (∀ i < (newL 2 2 3).width, ∀ j < (newL 2 2 3).height, (i, j) ≠ (i0, j0) →
        im'.pix i j = (newL 2 2 3).pix i j) →
      (newL 2 2 3).pix i0 j0 ≤ im'.pix i0 j0 →
      diff_badness (newL 2 2 3) ≤ diff_badness im')) :=
  ⟨by decide, claimC4_badness (newL 2 2 3) (by decide)⟩

/-- C5: the mask builder `tweak_diff` maps each cell value `v ∈ [0, 255]`
to exactly `opacity + v * (255 - opacity) / 255` (truncating division), so
the output lies in `[opacity, 255]`, `v = 0` maps to `opacity`, `v = 255`
maps to 255 regardless of `opacity`, and `opacity = 0` gives the identity
map. -/
theorem claimC5_tweak (im : Img) (opacity i j : Nat)
    (ho : opacity ≤ 255) (hv : im.pix i j ≤ 255) :
    (tweak_diff im opacity).pix i j = opacity + im.pix i j * (255 - opacity) / 255 ∧
    opacity ≤ (tweak_diff im opacity).pix i j ∧
    (tweak_diff im opacity).pix i j ≤ 255 ∧
    (im.pix i j = 0 → (tweak_diff im opacity).pix i j = opacity) ∧
    (im.pix i j = 255 → (tweak_diff im opacity).pix i j = 255) ∧
    (tweak_diff im 0).pix i j = im.pix i j := by
  have hcancel : 255 * (255 - opacity) / 255 = 255 - opacity :=
    Nat.mul_div_cancel_left _ (by norm_num)
  refine ⟨rfl, Nat.le_add_right _ _, ?_, ?_, ?_, ?_⟩
  · have h1 : im.pix i j * (255 - opacity) ≤ 255 * (255 - opacity) :=
      Nat.mul_le_mul_right _ hv
    have h2 : im.pix i j * (255 - opacity) / 255 ≤ 255 * (255 - opacity) / 255 :=
      Nat.div_le_div_right h1
    show opacity + im.pix i j * (255 - opacity) / 255 ≤ 255
    omega
  · intro h
    show opacity + im.pix i j * (255 - opacity) / 255 = opacity
    rw [h]
    simp
  · intro h
    show opacity + im.pix i j * (255 - opacity) / 255 = 255
    rw [h, hcancel]
    omega
  · show 0 + im.pix i j * (255 - 0) / 255 = im.pix i j
    rw [Nat.zero_add, Nat.sub_zero, Nat.mul_div_cancel _ (by norm_num)]

theorem claimC5_tweak_witness :
    (64 ≤ 255 ∧ (newL 1 1 10).pix 0 0 ≤ 255) ∧
    ((tweak_diff (newL 1 1 10) 64).pix 0 0 =
        64 + (newL 1 1 10).pix 0 0 * (255 - 64) / 255 ∧
      64 ≤ (tweak_diff (newL 1 1 10) 64).pix 0 0 ∧
      (tweak_diff (newL 1 1 10) 64).pix 0 0 ≤ 255 ∧
      ((newL 1 1 10).pix 0 0 = 0 → (tweak_diff (newL 1 1 10) 64).pix 0 0 = 64) ∧
      ((newL 1 1 10).pix 0 0 = 255 → (tweak_diff (newL 1 1 10) 64).pix 0 0 = 255) ∧
      (tweak_diff (newL 1 1 10) 0).pix 0 0 = (newL 1 1 10).pix 0 0) :=
  ⟨⟨by decide, by decide⟩, claimC5_tweak (newL 1 1 10) 64 0 0 (by decide) (by decide)⟩

/-- C9: a timeout of 0 disables cancellation entirely — `Progress.next`
never raises `Timeout` however much time has elapsed; for a strictly
positive timeout it raises `Timeout` exactly when the elapsed time strictly
exceeds the timeout; and a highlight call whose first timer check already
exceeds a positive timeout returns `none`. -/
theorem claimC9_progress :
    (∀ (p : Progress) (e : ℚ), p.timeout = 0 →
      Progress.next p e = .ok { p with position := p.position + 1 }) ∧
    (∀ (p : Progress) (e : ℚ), 0 < p.timeout →
      (Progress.next p e = .error () ↔ p.timeout < e)) ∧
    (∀ (img1 img2 : Img) (clock : Nat → ℚ) (timeout : ℚ) (opacity : Nat),
      0 < timeout → timeout < clock 1 →
      simple_highlight img1 img2 clock timeout opacity = none) := by
  refine ⟨?_, ?_, ?_⟩
  · intro p e h
    rw [Progress.next]
    have : timerFires p.timeout e = false := by
      simp [timerFires, h]
    rw [this]
    simp
  · intro p e h
    rw [Progress.next]
    by_cases hlt : p.timeout < e
    · have : timerFires p.timeout e = true := by
        simp [timerFires]
        exact ⟨ne_of_gt h, hlt⟩
      rw [this]
      simp [hlt]
    · have : timerFires p.timeout e = false := by
        simp [timerFires]
        intro _
        exact le_of_not_lt hlt
      rw [this]
      simp [hlt]
  · intro img1 img2 clock timeout opacity h0 h1
    have hlen : 0 < (offsets img1 img2).length := by
      rw [offsetsLength]
      exact Nat.mul_pos (by omega) (by omega)
    have hfire : timerFires timeout (clock 1) = true := by
      simp [timerFires]
      exact ⟨ne_of_gt h0, h1⟩
    have herr := bestLoopFire img1 img2 clock timeout (offsets img1 img2) 0 none
      (255 * min img1.width img2.width * min img1.height img2.height + 1)
      ⟨1, by omega, by omega, hfire⟩
    rw [simple_highlight, best_diff]
    rw [herr]

theorem claimC9_progress_witness :
    ((0 : ℚ) < 1 ∧ (1 : ℚ) < 2) ∧
    simple_highlight (newL 1 1 0) (newL 1 1 0) (fun _ => 2) 1 64 = none :=
  ⟨⟨by norm_num, by norm_num⟩,
    claimC9_progress.2.2 (newL 1 1 0) (newL 1 1 0) (fun _ => 2) 1 64
      (by norm_num) (by norm_num)⟩

/-- Helper for witnesses: a zero timeout never fires the timer. -/
theorem timerNeverFiresZero (e : ℚ) : timerFires 0 e = false := by
  simp [timerFires]

/-- C1: for two images of equal width and height the fast-mode search
enumerates exactly the single alignment `((0,0),(0,0))`, and the badness of
the difference map at that alignment is 0 iff the images are
pixel-identical. -/
theorem claimC1_equalSize (img1 img2 : Img)
    (hw : img1.width = img2.width) (hh : img1.height = img2.height)
    (h1 : img1.valid) (h2 : img2.valid) :
    offsets img1 img2 = [((0, 0), (0, 0))] ∧
    (diff_badness (diff img1 img2 (0, 0) (0, 0)) = 0 ↔
      ∀ i < img1.width, ∀ j < img1.height, img1.pix i j = img2.pix i j) := by
  have hnw : ¬ (img1.width > img2.width) := by omega
  have hnh : ¬ (img1.height > img2.height) := by omega
  have e1 : natAbsDiff img1.width img2.width = 0 := by
    unfold natAbsDiff
    omega
  have e2 : natAbsDiff img1.height img2.height = 0 := by
    unfold natAbsDiff
    omega
  have hr : List.range 1 = [0] := rfl
  have hf : offAt img1 img2 0 0 = ((0, 0), (0, 0)) := by
    simp [offAt]
  have hoff : offsets img1 img2 = [((0, 0), (0, 0))] := by
    simp only [offsets, e1, e2, Nat.zero_add, hr, List.flatMap_cons, List.flatMap_nil,
      List.map_cons, List.map_nil, List.append_nil, hf]
  refine ⟨hoff, ?_⟩
  have hmem : (((0 : Nat), (0 : Nat)), ((0 : Nat), (0 : Nat))) ∈ offsets img1 img2 := by
    rw [hoff]
    exact List.mem_singleton_self _
  have hv := diffValid img1 img2 h1 h2 ((0, 0), (0, 0)) hmem
  rw [badnessEqZeroIff _ hv]
  have hwd : (diff img1 img2 (0, 0) (0, 0)).width = img1.width := by
    rw [diffWidth]
    omega
  have hhd : (diff img1 img2 (0, 0) (0, 0)).height = img1.height := by
    rw [diffHeight]
    omega
  rw [hwd, hhd]
  constructor
  · intro H i hi j hj
    have hz := H i hi j hj
    have : natAbsDiff (img1.pix (0 + i) (0 + j)) (img2.pix (0 + i) (0 + j)) = 0 := hz
    unfold natAbsDiff at this
    simp only [Nat.zero_add] at this
    omega
  · intro H i hi j hj
    show natAbsDiff (img1.pix (0 + i) (0 + j)) (img2.pix (0 + i) (0 + j)) = 0
    have := H i hi j hj
    unfold natAbsDiff
    simp only [Nat.zero_add]
    omega

theorem claimC1_equalSize_witness :
    ((newL 2 2 5).width = (newL 2 2 7).width ∧ (newL 2 2 5).height = (newL 2 2 7).height ∧
      (newL 2 2 5).valid ∧ (newL 2 2 7).valid) ∧
    (offsets (newL 2 2 5) (newL 2 2 7) = [((0, 0), (0, 0))] ∧
      (diff_badness (diff (newL 2 2 5) (newL 2 2 7) (0, 0) (0, 0)) = 0 ↔
        ∀ i < (newL 2 2 5).width, ∀ j < (newL 2 2 5).height,
          (newL 2 2 5).pix i j = (newL 2 2 7).pix i j)) :=
  ⟨⟨rfl, rfl, by decide, by decide⟩,
    claimC1_equalSize (newL 2 2 5) (newL 2 2 7) rfl rfl (by decide) (by decide)⟩

/-- C6: every alignment enumerated by the fast-mode search has, on each
axis, at most one nonzero shift; a nonzero shift can only sit on the
strictly larger image; equal dimensions force both shifts to zero; and the
compared overlap has exactly the size of the smaller image. -/
theorem claimC6_forcedShift (img1 img2 : Img) (o : Alignment) (ho : o ∈ offsets img1 img2) :
    (o.1.1 = 0 ∨ o.2.1 = 0) ∧ (o.1.2 = 0 ∨ o.2.2 = 0) ∧
    (o.1.1 ≠ 0 → img2.width < img1.width) ∧ (o.2.1 ≠ 0 → img1.width < img2.width) ∧
    (o.1.2 ≠ 0 → img2.height < img1.height) ∧ (o.2.2 ≠ 0 → img1.height < img2.height) ∧
    (img1.width = img2.width → o.1.1 = 0 ∧ o.2.1 = 0) ∧
    (img1.height = img2.height → o.1.2 = 0 ∧ o.2.2 = 0) ∧
    (diff img1 img2 o.1 o.2).width = min img1.width img2.width ∧
    (diff img1 img2 o.1 o.2).height = min img1.height img2.height := by
  obtain ⟨x, hx, y, hy, rfl⟩ := (memOffsets img1 img2 o).1 ho
  unfold natAbsDiff at hx hy
  refine ⟨?_, ?_, ?_, ?_, ?_, ?_, ?_, ?_,
    diffWidth img1 img2 _ _, diffHeight img1 img2 _ _⟩ <;>
      unfold offAt <;>
      by_cases hw : img1.width > img2.width <;>
      by_cases hhh : img1.height > img2.height <;>
      simp [hw, hhh] <;>
      omega

theorem claimC6_forcedShift_witness :
    (((1, 0), (0, 0)) ∈ offsets (newL 3 2 0) (newL 2 2 0)) ∧
    ((((1 : Nat), (0 : Nat)), ((0 : Nat), (0 : Nat))).1.1 = 0 ∨
      (((1 : Nat), (0 : Nat)), ((0 : Nat), (0 : Nat))).2.1 = 0) ∧
    ((((1 : Nat), (0 : Nat)), ((0 : Nat), (0 : Nat))).1.2 = 0 ∨
      (((1 : Nat), (0 : Nat)), ((0 : Nat), (0 : Nat))).2.2 = 0) ∧
    ((((1 : Nat), (0 : Nat)), ((0 : Nat), (0 : Nat))).1.1 ≠ 0 →
      (newL 2 2 0).width < (newL 3 2 0).width) ∧
    ((((1 : Nat), (0 : Nat)), ((0 : Nat), (0 : Nat))).2.1 ≠ 0 →
      (newL 3 2 0).width < (newL 2 2 0).width) ∧
    ((((1 : Nat), (0 : Nat)), ((0 : Nat), (0 : Nat))).1.2 ≠ 0 →
      (newL 2 2 0).height < (newL 3 2 0).height) ∧
    ((((1 : Nat), (0 : Nat)), ((0 : Nat), (0 : Nat))).2.2 ≠ 0 →
      (newL 3 2 0).height < (newL 2 2 0).height) ∧
    ((newL 3 2 0).width = (newL 2 2 0).width →
      (((1 : Nat), (0 : Nat)), ((0 : Nat), (0 : Nat))).1.1 = 0 ∧
      (((1 : Nat), (0 : Nat)), ((0 : Nat), (0 : Nat))).2.1 = 0) ∧
    ((newL 3 2 0).height = (newL 2 2 0).height →
      (((1 : Nat), (0 : Nat)), ((0 : Nat), (0 : Nat))).1.2 = 0 ∧
      (((1 : Nat), (0 : Nat)), ((0 : Nat), (0 : Nat))).2.2 = 0) ∧
    (diff (newL 3 2 0) (newL 2 2 0) ((1 : Nat), (0 : Nat)) ((0 : Nat), (0 : Nat))).width =
      min (newL 3 2 0).width (newL 2 2 0).width ∧
    (diff (newL 3 2 0) (newL 2 2 0) ((1 : Nat), (0 : Nat)) ((0 : Nat), (0 : Nat))).height =
      min (newL 3 2 0).height (newL 2 2 0).height :=
  ⟨by decide, claimC6_forcedShift (newL 3 2 0) (newL 2 2 0) (((1, 0), (0, 0))) (by decide)⟩

/-- C3: both search modes enumerate exactly
`(|w1 - w2| + 1) * (|h1 - h2| + 1)` candidate offsets, with `x` the outer
loop and `y` the inner loop (grid position `(x, y)` sits at list index
`x * yr + y`), and — absent a timeout — each advances the progress counter
exactly once per enumerated offset, ending at the total. -/
theorem claimC3_enumeration (img1 img2 : Img) (bg : Nat) (clock : Nat → ℚ) (timeout : ℚ)
    (hnf : ∀ k, 1 ≤ k →
      k ≤ (natAbsDiff img1.width img2.width + 1) * (natAbsDiff img1.height img2.height + 1) →
      timerFires timeout (clock k) = false) :
    (offsets img1 img2).length =
      (natAbsDiff img1.width img2.width + 1) * (natAbsDiff img1.height img2.height + 1) ∧
    (∀ x < natAbsDiff img1.width img2.width + 1,
      ∀ y < natAbsDiff img1.height img2.height + 1,
      (offsets img1 img2)[x * (natAbsDiff img1.height img2.height + 1) + y]? =
        some (offAt img1 img2 x y)) ∧
    (∃ r, best_diff img1 img2 clock timeout =
      .ok (r, (natAbsDiff img1.width img2.width + 1) *
        (natAbsDiff img1.height img2.height + 1))) ∧
    (∃ s', slowOuter img1 img2 clock timeout (natAbsDiff img1.height img2.height + 1)
        (natAbsDiff img1.width img2.width + 1) (slowInit img1 img2 bg) = .ok s' ∧
      s'.pos = (natAbsDiff img1.width img2.width + 1) *
        (natAbsDiff img1.height img2.height + 1)) := by
  refine ⟨offsetsLength img1 img2, ?_, ?_, ?_⟩
  · intro x hx y hy
    exact gridGet (offAt img1 img2) (natAbsDiff img1.height img2.height + 1)
      (natAbsDiff img1.width img2.width + 1) x y hx hy
  · obtain ⟨r, hr, _⟩ := bestLoopComplete img1 img2 clock timeout (offsets img1 img2) 0 none
      (255 * min img1.width img2.width * min img1.height img2.height + 1)
      (by
        intro k hk1 hk2
        rw [Nat.zero_add, offsetsLength] at hk2
        exact hnf k (by omega) hk2)
    refine ⟨r, ?_⟩
    rw [best_diff, hr, Nat.zero_add, offsetsLength]
  · have hpos0 : (slowInit img1 img2 bg).pos = 0 := rfl
    obtain ⟨s', hs', hpos⟩ := slowOuterComplete img1 img2 clock timeout
      (natAbsDiff img1.height img2.height + 1) (natAbsDiff img1.width img2.width + 1)
      (slowInit img1 img2 bg)
      (by
        intro k hk1 hk2
        rw [hpos0] at hk1 hk2
        exact hnf k (by omega) (by omega))
    exact ⟨s', hs', by rw [hpos, hpos0, Nat.zero_add]⟩

theorem claimC3_enumeration_witness :
    (∀ k, 1 ≤ k →
      k ≤ (natAbsDiff (newL 2 1 0).width (newL 1 1 0).width + 1) *
        (natAbsDiff (newL 2 1 0).height (newL 1 1 0).height + 1) →
      timerFires 0 ((fun _ => (0 : ℚ)) k) = false) ∧
    ((offsets (newL 2 1 0) (newL 1 1 0)).length =
      (natAbsDiff (newL 2 1 0).width (newL 1 1 0).width + 1) *
        (natAbsDiff (newL 2 1 0).height (newL 1 1 0).height + 1) ∧
    (∀ x < natAbsDiff (newL 2 1 0).width (newL 1 1 0).width + 1,
      ∀ y < natAbsDiff (newL 2 1 0).height (newL 1 1 0).height + 1,
      (offsets (newL 2 1 0) (newL 1 1 0))[x *
          (natAbsDiff (newL 2 1 0).height (newL 1 1 0).height + 1) + y]? =
        some (offAt (newL 2 1 0) (newL 1 1 0) x y)) ∧
    (∃ r, best_diff (newL 2 1 0) (newL 1 1 0) (fun _ => (0 : ℚ)) 0 =
      .ok (r, (natAbsDiff (newL 2 1 0).width (newL 1 1 0).width + 1) *
        (natAbsDiff (newL 2 1 0).height (newL 1 1 0).height + 1))) ∧
    (∃ s', slowOuter (newL 2 1 0) (newL 1 1 0) (fun _ => (0 : ℚ)) 0
        (natAbsDiff (newL 2 1 0).height (newL 1 1 0).height + 1)
        (natAbsDiff (newL 2 1 0).width (newL 1 1 0).width + 1)
        (slowInit (newL 2 1 0) (newL 1 1 0) 0) = .ok s' ∧
      s'.pos = (natAbsDiff (newL 2 1 0).width (newL 1 1 0).width + 1) *
        (natAbsDiff (newL 2 1 0).height (newL 1 1 0).height + 1))) :=
  ⟨fun _ _ _ => timerNeverFiresZero 0,
    claimC3_enumeration (newL 2 1 0) (newL 1 1 0) 0 (fun _ => (0 : ℚ)) 0
      (fun _ _ _ => timerNeverFiresZero 0)⟩

/-- C10: for every pair of valid images (zero-sized ones included), the
offset grid is nonempty and every candidate's badness is at most
`255 * min(w1,w2) * min(h1,h2)` — strictly below the initial sentinel value
`255 * min(w1,w2) * min(h1,h2) + 1` — so a completed fast-mode sweep always
returns a real difference map and alignment, never the `none` sentinel, and
the fast highlight operation (absent timeout) always returns two masks. -/
theorem claimC10_sentinel (img1 img2 : Img) (clock : Nat → ℚ) (timeout : ℚ) (opacity : Nat)
    (h1 : img1.valid) (h2 : img2.valid)
    (hnf : ∀ k, 1 ≤ k →
      k ≤ (natAbsDiff img1.width img2.width + 1) * (natAbsDiff img1.height img2.height + 1) →
      timerFires timeout (clock k) = false) :
    offsets img1 img2 ≠ [] ∧
    (∀ o ∈ offsets img1 img2,
      diff_badness (diff img1 img2 o.1 o.2) ≤
        255 * min img1.width img2.width * min img1.height img2.height) ∧
    (∃ d a, best_diff img1 img2 clock timeout =
      .ok (some (d, a), (offsets img1 img2).length)) ∧
    (∃ m1 m2, simple_highlight img1 img2 clock timeout opacity = some (m1, m2)) := by
  have hne : offsets img1 img2 ≠ [] := by
    have : 0 < (offsets img1 img2).length := by
      rw [offsetsLength]
      exact Nat.mul_pos (by omega) (by omega)
    exact List.length_pos.mp this
  have hbound : ∀ o ∈ offsets img1 img2,
      diff_badness (diff img1 img2 o.1 o.2) ≤
        255 * min img1.width img2.width * min img1.height img2.height := by
    intro o ho
    have hv := diffValid img1 img2 h1 h2 o ho
    have hle := badnessLe _ hv
    rw [diffWidth, diffHeight] at hle
    exact hle
  obtain ⟨r, hr, hsome⟩ := bestLoopComplete img1 img2 clock timeout (offsets img1 img2) 0 none
    (255 * min img1.width img2.width * min img1.height img2.height + 1)
    (by
      intro k hk1 hk2
      rw [Nat.zero_add, offsetsLength] at hk2
      exact hnf k (by omega) hk2)
  have hrs : r.isSome = true := by
    refine hsome (Or.inr ?_)
    obtain ⟨o, ho⟩ := List.exists_mem_of_ne_nil _ hne
    exact ⟨o, ho, Nat.lt_succ_of_le (hbound o ho)⟩
  obtain ⟨⟨d, a⟩, rfl⟩ := Option.isSome_iff_exists.mp hrs
  have hbd : best_diff img1 img2 clock timeout =
      .ok (some (d, a), (offsets img1 img2).length) := by
    rw [best_diff, hr, Nat.zero_add]
  obtain ⟨⟨x1, y1⟩, x2, y2⟩ := a
  refine ⟨hne, hbound, ⟨d, ((x1, y1), (x2, y2)), hbd⟩, ?_⟩
  refine ⟨paste (newL img1.width img1.height 0xff)
      (tweak_diff (maxFilter 9 d) opacity) x1 y1,
    paste (newL img2.width img2.height 0xff)
      (tweak_diff (maxFilter 9 d) opacity) x2 y2, ?_⟩
  rw [simple_highlight, hbd]

theorem claimC10_sentinel_witness :
    ((newL 1 2 9).valid ∧ (newL 2 1 4).valid ∧
      (∀ k, 1 ≤ k →
        k ≤ (natAbsDiff (newL 1 2 9).width (newL 2 1 4).width + 1) *
          (natAbsDiff (newL 1 2 9).height (newL 2 1 4).height + 1) →
        timerFires 0 ((fun _ => (0 : ℚ)) k) = false)) ∧
    (offsets (newL 1 2 9) (newL 2 1 4) ≠ [] ∧
    (∀ o ∈ offsets (newL 1 2 9) (newL 2 1 4),
      diff_badness (diff (newL 1 2 9) (newL 2 1 4) o.1 o.2) ≤
        255 * min (newL 1 2 9).width (newL 2 1 4).width *
          min (newL 1 2 9).height (newL 2 1 4).height) ∧
    (∃ d a, best_diff (newL 1 2 9) (newL 2 1 4) (fun _ => (0 : ℚ)) 0 =
      .ok (some (d, a), (offsets (newL 1 2 9) (newL 2 1 4)).length)) ∧
    (∃ m1 m2, simple_highlight (newL 1 2 9) (newL 2 1 4) (fun _ => (0 : ℚ)) 0 64 =
      some (m1, m2))) :=
  ⟨⟨by decide, by decide, fun _ _ _ => timerNeverFiresZero 0⟩,
    claimC10_sentinel (newL 1 2 9) (newL 2 1 4) (fun _ => (0 : ℚ)) 0 64
      (by decide) (by decide) (fun _ _ _ => timerNeverFiresZero 0)⟩

/-- C2: if the progress timer signals cancellation at some step of the
offset sweep, both the fast and the thorough highlight operations abort and
return no masks — never a partial difference map or accumulator. -/
theorem claimC2_timeoutNone (img1 img2 : Img) (bg : Nat) (clock : Nat → ℚ) (timeout : ℚ)
    (opacity : Nat)
    (hfire : ∃ k, 1 ≤ k ∧
      k ≤ (natAbsDiff img1.width img2.width + 1) * (natAbsDiff img1.height img2.height + 1) ∧
      timerFires timeout (clock k) = true) :
    simple_highlight img1 img2 clock timeout opacity = none ∧
    slow_highlight img1 img2 bg clock timeout opacity = none := by
  obtain ⟨k, hk1, hk2, hk3⟩ := hfire
  constructor
  · have herr := bestLoopFire img1 img2 clock timeout (offsets img1 img2) 0 none
      (255 * min img1.width img2.width * min img1.height img2.height + 1)
      ⟨k, by omega, by rw [Nat.zero_add, offsetsLength]; omega, hk3⟩
    rw [simple_highlight, best_diff, herr]
  · have hpos0 : (slowInit img1 img2 bg).pos = 0 := rfl
    have herr := slowOuterFire img1 img2 clock timeout
      (natAbsDiff img1.height img2.height + 1) (natAbsDiff img1.width img2.width + 1)
      (slowInit img1 img2 bg) ⟨k, by omega, by rw [hpos0, Nat.zero_add]; omega, hk3⟩
    rw [slow_highlight, herr]

theorem claimC2_timeoutNone_witness :
    (∃ k, 1 ≤ k ∧
      k ≤ (natAbsDiff (newL 1 1 0).width (newL 1 1 0).width + 1) *
        (natAbsDiff (newL 1 1 0).height (newL 1 1 0).height + 1) ∧
      timerFires 1 ((fun _ => (2 : ℚ)) k) = true) ∧
    (simple_highlight (newL 1 1 0) (newL 1 1 0) (fun _ => (2 : ℚ)) 1 64 = none ∧
     slow_highlight (newL 1 1 0) (newL 1 1 0) 0 (fun _ => (2 : ℚ)) 1 64 = none) :=
  ⟨⟨1, by norm_num, by decide, by norm_num [timerFires]⟩,
    claimC2_timeoutNone (newL 1 1 0) (newL 1 1 0) 0 (fun _ => (2 : ℚ)) 1 64
      ⟨1, by norm_num, by decide, by norm_num [timerFires]⟩⟩

/-- C8: when the fast-mode search returns a winning map `d` at alignment
`((x1,y1),(x2,y2))`, the fast highlight operation returns a mask of exactly
each image's size, and every pixel outside the rectangle where the
(smoothed, remapped) difference map was pasted equals `0xff`, since the
masks start fully opaque and only the pasted region is overwritten. -/
theorem claimC8_maskFrame (img1 img2 : Img) (clock : Nat → ℚ) (timeout : ℚ) (opacity : Nat)
    (d : Img) (x1 y1 x2 y2 : Nat) (pos : Nat)
    (hbd : best_diff img1 img2 clock timeout = .ok (some (d, ((x1, y1), (x2, y2))), pos)) :
    ∃ m1 m2, simple_highlight img1 img2 clock timeout opacity = some (m1, m2) ∧
      m1.width = img1.width ∧ m1.height = img1.height ∧
      m2.width = img2.width ∧ m2.height = img2.height ∧
      (∀ i j, ¬(x1 ≤ i ∧ i < x1 + d.width ∧ y1 ≤ j ∧ j < y1 + d.height) →
        m1.pix i j = 0xff) ∧
      (∀ i j, ¬(x2 ≤ i ∧ i < x2 + d.width ∧ y2 ≤ j ∧ j < y2 + d.height) →
        m2.pix i j = 0xff) := by
  refine ⟨paste (newL img1.width img1.height 0xff) (tweak_diff (maxFilter 9 d) opacity) x1 y1,
    paste (newL img2.width img2.height 0xff) (tweak_diff (maxFilter 9 d) opacity) x2 y2,
    ?_, rfl, rfl, rfl, rfl, ?_, ?_⟩
  · rw [simple_highlight, hbd]
  · intro i j hout
    have hout' : ¬(x1 ≤ i ∧ i < x1 + (tweak_diff (maxFilter 9 d) opacity).width ∧
        y1 ≤ j ∧ j < y1 + (tweak_diff (maxFilter 9 d) opacity).height) := hout
    show (if x1 ≤ i ∧ i < x1 + (tweak_diff (maxFilter 9 d) opacity).width ∧
        y1 ≤ j ∧ j < y1 + (tweak_diff (maxFilter 9 d) opacity).height then
        (tweak_diff (maxFilter 9 d) opacity).pix (i - x1) (j - y1)
      else (newL img1.width img1.height 0xff).pix i j) = 0xff
    rw [if_neg hout']
    rfl
  · intro i j hout
    have hout' : ¬(x2 ≤ i ∧ i < x2 + (tweak_diff (maxFilter 9 d) opacity).width ∧
        y2 ≤ j ∧ j < y2 + (tweak_diff (maxFilter 9 d) opacity).height) := hout
    show (if x2 ≤ i ∧ i < x2 + (tweak_diff (maxFilter 9 d) opacity).width ∧
        y2 ≤ j ∧ j < y2 + (tweak_diff (maxFilter 9 d) opacity).height then
        (tweak_diff (maxFilter 9 d) opacity).pix (i - x2) (j - y2)
      else (newL img2.width img2.height 0xff).pix i j) = 0xff
    rw [if_neg hout']
    rfl

set_option maxRecDepth 10000 in
theorem claimC8_maskFrame_witness :
    (best_diff (newL 1 1 3) (newL 1 1 3) (fun _ => (0 : ℚ)) 0 =
      .ok (some (diff (newL 1 1 3) (newL 1 1 3) (0, 0) (0, 0), ((0, 0), (0, 0))), 1)) ∧
    (∃ m1 m2, simple_highlight (newL 1 1 3) (newL 1 1 3) (fun _ => (0 : ℚ)) 0 64 =
        some (m1, m2) ∧
      m1.width = (newL 1 1 3).width ∧ m1.height = (newL 1 1 3).height ∧
      m2.width = (newL 1 1 3).width ∧ m2.height = (newL 1 1 3).height ∧
      (∀ i j, ¬(0 ≤ i ∧ i < 0 + (diff (newL 1 1 3) (newL 1 1 3) (0, 0) (0, 0)).width ∧
          0 ≤ j ∧ j < 0 + (diff (newL 1 1 3) (newL 1 1 3) (0, 0) (0, 0)).height) →
        m1.pix i j = 0xff) ∧
      (∀ i j, ¬(0 ≤ i ∧ i < 0 + (diff (newL 1 1 3) (newL 1 1 3) (0, 0) (0, 0)).width ∧
          0 ≤ j ∧ j < 0 + (diff (newL 1 1 3) (newL 1 1 3) (0, 0) (0, 0)).height) →
        m2.pix i j = 0xff)) :=
  ⟨rfl, claimC8_maskFrame (newL 1 1 3) (newL 1 1 3) (fun _ => (0 : ℚ)) 0 64
    (diff (newL 1 1 3) (newL 1 1 3) (0, 0) (0, 0)) 0 0 0 0 1 rfl⟩

/-! Helper lemmas about cyclic shifts, the max filter and pointwise
minimum folds, used for the thorough-mode accumulator invariant. -/

theorem offsetImgPix (im : Img) (dx dy : Int) (i j : Nat) :
    (offsetImg im dx dy).pix i j =
      im.pix ((((i : Int) - dx) % (im.width : Int)).toNat)
             ((((j : Int) - dy) % (im.height : Int)).toNat) := rfl

theorem offsetImgCoordLt (W : Nat) (hW : 0 < W) (i : Nat) (dx : Int) :
    (((i : Int) - dx) % (W : Int)).toNat < W := by
  have hW' : (0 : Int) < (W : Int) := by exact_mod_cast hW
  have h1 : 0 ≤ ((i : Int) - dx) % (W : Int) := Int.emod_nonneg _ (by omega)
  have h2 : ((i : Int) - dx) % (W : Int) < (W : Int) := Int.emod_lt_of_pos _ hW'
  omega

theorem emodShiftComp (W i c a : Int) (hW : 0 < W) :
    ((((i - c) % W).toNat : Int) - a) % W = (i - (a + c)) % W := by
  rw [Int.toNat_of_nonneg (Int.emod_nonneg _ (by omega))]
  conv_rhs => rw [show i - (a + c) = i - c - a by ring]
  rw [Int.sub_emod (i - c) a W, Int.sub_emod ((i - c) % W) a W,
    Int.emod_emod_of_dvd _ dvd_rfl]

theorem offsetImgComp (im : Img) (a b c d : Int) (hW : 0 < im.width) (hH : 0 < im.height)
    (i j : Nat) :
    (offsetImg (offsetImg im a b) c d).pix i j = (offsetImg im (a + c) (b + d)).pix i j := by
  rw [offsetImgPix, offsetImgPix, offsetImgPix]
  have hW' : (0 : Int) < ((offsetImg im a b).width : Int) := by exact_mod_cast hW
  have hH' : (0 : Int) < ((offsetImg im a b).height : Int) := by exact_mod_cast hH
  congr 1
  · exact congrArg Int.toNat (emodShiftComp _ (i : Int) c a hW')
  · exact congrArg Int.toNat (emodShiftComp _ (j : Int) d b hH')

theorem offsetImgZero (im : Img) (i j : Nat) (hi : i < im.width) (hj : j < im.height) :
    (offsetImg im 0 0).pix i j = im.pix i j := by
  rw [offsetImgPix]
  have hi' : ((i : Int) - 0) % (im.width : Int) = (i : Int) := by
    rw [Int.sub_zero]
    exact Int.emod_eq_of_lt (by omega) (by exact_mod_cast hi)
  have hj' : ((j : Int) - 0) % (im.height : Int) = (j : Int) := by
    rw [Int.sub_zero]
    exact Int.emod_eq_of_lt (by omega) (by exact_mod_cast hj)
  rw [hi', hj']
  simp

theorem offsetImgCongr (a b : Img) (dx dy : Int)
    (hw : a.width = b.width) (hh : a.height = b.height)
    (hpix : ∀ i < a.width, ∀ j < a.height, a.pix i j = b.pix i j)
    (i j : Nat) (hi : i < a.width) (hj : j < a.height) :
    (offsetImg a dx dy).pix i j = (offsetImg b dx dy).pix i j := by
  rw [offsetImgPix, offsetImgPix, ← hw, ← hh]
  exact hpix _ (offsetImgCoordLt _ (by omega) _ _) _ (offsetImgCoordLt _ (by omega) _ _)

theorem maxFilterCongr (a b : Img) (sz : Nat)
    (hw : a.width = b.width) (hh : a.height = b.height)
    (hpix : ∀ i < a.width, ∀ j < a.height, a.pix i j = b.pix i j)
    (i j : Nat) :
    (maxFilter sz a).pix i j = (maxFilter sz b).pix i j := by
  show (((List.range a.width).filter _).map _).foldr max 0 =
    (((List.range b.width).filter _).map _).foldr max 0
  rw [← hw, ← hh]
  congr 1
  apply List.map_congr_left
  intro x hx
  have hxw : x < a.width := List.mem_range.mp (List.mem_filter.mp hx).1
  congr 1
  apply List.map_congr_left
  intro y hy
  have hyh : y < a.height := List.mem_range.mp (List.mem_filter.mp hy).1
  exact hpix x hxw y hyh

theorem foldrMaxLe (c : Nat) : ∀ l : List Nat, (∀ v ∈ l, v ≤ c) → l.foldr max 0 ≤ c
  | [], _ => Nat.zero_le c
  | v :: t, h => by
    have hv : v ≤ c := h v (List.mem_cons_self v t)
    have ht : t.foldr max 0 ≤ c := foldrMaxLe c t fun w hw => h w (List.mem_cons_of_mem v hw)
    simp only [List.foldr_cons]
    omega

theorem maxFilterLe (sz : Nat) (im : Img) (hv : im.valid) (i j : Nat) :
    (maxFilter sz im).pix i j ≤ 255 := by
  show (((List.range im.width).filter _).map _).foldr max 0 ≤ 255
  apply foldrMaxLe
  intro v hvm
  obtain ⟨x, hx, rfl⟩ := List.mem_map.mp hvm
  apply foldrMaxLe
  intro w hwm
  obtain ⟨y, hy, rfl⟩ := List.mem_map.mp hwm
  exact hv x (List.mem_range.mp (List.mem_filter.mp hx).1)
    y (List.mem_range.mp (List.mem_filter.mp hy).1)

theorem padCanvasValid (im : Img) (W H bg : Nat) (hv : im.valid) (hbg : bg ≤ 255) :
    (padCanvas im W H bg).valid := by
  intro i _ j _
  show (if i < im.width ∧ j < im.height then im.pix i j else bg) ≤ 255
  by_cases h : i < im.width ∧ j < im.height
  · rw [if_pos h]
    exact hv i h.1 j h.2
  · rw [if_neg h]
    exact hbg

theorem offsetImgValid (im : Img) (dx dy : Int) (hv : im.valid) :
    (offsetImg im dx dy).valid := by
  intro i hi j hj
  have hi' : i < im.width := hi
  have hj' : j < im.height := hj
  rw [offsetImgPix]
  exact hv _ (offsetImgCoordLt _ (by omega) _ _) _ (offsetImgCoordLt _ (by omega) _ _)

theorem imageDiffLValid (a b : Img) (hw : a.width = b.width) (hh : a.height = b.height)
    (ha : a.valid) (hb : b.valid) : (imageDiffL a b).valid := by
  intro i hi j hj
  show natAbsDiff (a.pix i j) (b.pix i j) ≤ 255
  exact natAbsDiffLe _ _ _ (ha i hi j hj) (hb i (hw ▸ hi) j (hh ▸ hj))

theorem shiftedThisLe (img1 img2 : Img) (bg : Nat) (sx1 sy1 sx2 sy2 : Int)
    (h1 : img1.valid) (h2 : img2.valid) (hbg : bg ≤ 255) (i j : Nat) :
    (shiftedThis img1 img2 bg sx1 sy1 sx2 sy2).pix i j ≤ 255 := by
  apply maxFilterLe
  exact imageDiffLValid _ _ rfl rfl
    (offsetImgValid _ _ _ (padCanvasValid _ _ _ _ h1 hbg))
    (offsetImgValid _ _ _ (padCanvasValid _ _ _ _ h2 hbg))

theorem foldlMinLeInit : ∀ (l : List Nat) (a : Nat), l.foldl min a ≤ a
  | [], a => Nat.le_refl a
  | v :: t, a =>
    Nat.le_trans (foldlMinLeInit t (min a v)) (Nat.min_le_left a v)

theorem foldlMinLeMem : ∀ (l : List Nat) (a v : Nat), v ∈ l → l.foldl min a ≤ v
  | [], _, v, hv => absurd hv (List.not_mem_nil v)
  | w :: t, a, v, hv => by
    rcases List.mem_cons.mp hv with rfl | hv'
    · exact Nat.le_trans (foldlMinLeInit t (min a v)) (Nat.min_le_right a v)
    · exact foldlMinLeMem t (min a w) v hv'

theorem foldlMinCases : ∀ (l : List Nat) (a : Nat),
    l.foldl min a = a ∨ ∃ v ∈ l, l.foldl min a = v
  | [], a => Or.inl rfl
  | w :: t, a => by
    rcases foldlMinCases t (min a w) with h | ⟨v, hv, he⟩
    · simp only [List.foldl_cons]
      rcases Nat.le_total a w with hle | hle
      · rw [h, Nat.min_eq_left hle]
        exact Or.inl rfl
      · rw [h, Nat.min_eq_right hle]
        exact Or.inr ⟨w, List.mem_cons_self w t, rfl⟩
    · exact Or.inr ⟨v, List.mem_cons_of_mem w hv, he⟩

theorem darkerPix (a b : Img) (i j : Nat) :
    (darker a b).pix i j = min (a.pix i j) (b.pix i j) := rfl

/-- The loop invariant of the thorough sweep: each mutable canvas has the
full canvas size and agrees, on the canvas domain, with a cyclic shift of
its initial padded canvas. -/
def CanvasInv (img1 img2 : Img) (bg : Nat) (s : SlowState) (sx1 sy1 sx2 sy2 : Int) : Prop :=
  s.p1.width = max img1.width img2.width ∧
  s.p1.height = max img1.height img2.height ∧
  s.p2.width = max img1.width img2.width ∧
  s.p2.height = max img1.height img2.height ∧
  (∀ i < max img1.width img2.width, ∀ j < max img1.height img2.height,
    s.p1.pix i j = (offsetImg (pimg1 img1 img2 bg) sx1 sy1).pix i j) ∧
  (∀ i < max img1.width img2.width, ∀ j < max img1.height img2.height,
    s.p2.pix i j = (offsetImg (pimg2 img1 img2 bg) sx2 sy2).pix i j)

theorem canvasInvShift1 (img1 img2 : Img) (bg : Nat) (s : SlowState) (sx1 sy1 sx2 sy2 : Int)
    (h : CanvasInv img1 img2 bg s sx1 sy1 sx2 sy2) (dx dy : Int) (t : SlowState)
    (ht1 : t.p1 = offsetImg s.p1 dx dy) (ht2 : t.p2 = s.p2) :
    CanvasInv img1 img2 bg t (sx1 + dx) (sy1 + dy) sx2 sy2 := by
  obtain ⟨d1w, d1h, d2w, d2h, e1, e2⟩ := h
  refine ⟨by rw [ht1]; exact d1w, by rw [ht1]; exact d1h, by rw [ht2]; exact d2w,
    by rw [ht2]; exact d2h, ?_, fun i hi j hj => by rw [ht2]; exact e2 i hi j hj⟩
  intro i hi j hj
  rw [ht1]
  have hcong := offsetImgCongr s.p1 (offsetImg (pimg1 img1 img2 bg) sx1 sy1) dx dy
    (by rw [d1w]; rfl) (by rw [d1h]; rfl)
    (fun i' hi' j' hj' => e1 i' (d1w ▸ hi') j' (d1h ▸ hj'))
    i j (by rw [d1w]; exact hi) (by rw [d1h]; exact hj)
  rw [hcong]
  exact offsetImgComp (pimg1 img1 img2 bg) sx1 sy1 dx dy
    (show 0 < max img1.width img2.width by omega)
    (show 0 < max img1.height img2.height by omega) i j

theorem canvasInvShift2 (img1 img2 : Img) (bg : Nat) (s : SlowState) (sx1 sy1 sx2 sy2 : Int)
    (h : CanvasInv img1 img2 bg s sx1 sy1 sx2 sy2) (dx dy : Int) (t : SlowState)
    (ht1 : t.p1 = s.p1) (ht2 : t.p2 = offsetImg s.p2 dx dy) :
    CanvasInv img1 img2 bg t sx1 sy1 (sx2 + dx) (sy2 + dy) := by
  obtain ⟨d1w, d1h, d2w, d2h, e1, e2⟩ := h
  refine ⟨by rw [ht1]; exact d1w, by rw [ht1]; exact d1h, by rw [ht2]; exact d2w,
    by rw [ht2]; exact d2h, fun i hi j hj => by rw [ht1]; exact e1 i hi j hj, ?_⟩
  intro i hi j hj
  rw [ht2]
  have hcong := offsetImgCongr s.p2 (offsetImg (pimg2 img1 img2 bg) sx2 sy2) dx dy
    (by rw [d2w]; rfl) (by rw [d2h]; rfl)
    (fun i' hi' j' hj' => e2 i' (d2w ▸ hi') j' (d2h ▸ hj'))
    i j (by rw [d2w]; exact hi) (by rw [d2h]; exact hj)
  rw [hcong]
  exact offsetImgComp (pimg2 img1 img2 bg) sx2 sy2 dx dy
    (show 0 < max img1.width img2.width by omega)
    (show 0 < max img1.height img2.height by omega) i j

/-- Under the canvas invariant, the smoothed difference computed by one
inner step equals the shift-parametrised map `shiftedThis`, at every
coordinate. -/
theorem canvasInvThis (img1 img2 : Img) (bg : Nat) (s : SlowState) (sx1 sy1 sx2 sy2 : Int)
    (h : CanvasInv img1 img2 bg s sx1 sy1 sx2 sy2) (i j : Nat) :
    (maxFilter 7 (imageDiffL s.p1 s.p2)).pix i j =
      (shiftedThis img1 img2 bg sx1 sy1 sx2 sy2).pix i j := by
  obtain ⟨d1w, d1h, d2w, d2h, e1, e2⟩ := h
  apply maxFilterCongr
  · show s.p1.width = (pimg1 img1 img2 bg).width
    rw [d1w]
    rfl
  · show s.p1.height = (pimg1 img1 img2 bg).height
    rw [d1h]
    rfl
  · intro i' hi' j' hj'
    have hi2 : i' < max img1.width img2.width := by
      have : i' < s.p1.width := hi'
      omega
    have hj2 : j' < max img1.height img2.height := by
      have : j' < s.p1.height := hj'
      omega
    show natAbsDiff (s.p1.pix i' j') (s.p2.pix i' j') = _
    rw [e1 i' hi2 j' hj2, e2 i' hi2 j' hj2]
    rfl

theorem foldlMinRangeSucc (f : Nat → Nat) (n a : Nat) :
    ((List.range (n + 1)).map f).foldl min a =
      ((List.range n).map fun y => f (y + 1)).foldl min (min a (f 0)) := by
  rw [List.range_succ_eq_map, List.map_cons, List.foldl_cons, List.map_map]
  rfl

/-- Full specification of one inner pass of the thorough sweep: absent a
timeout it succeeds, advances the position by `n`, leaves the accumulator
dimensions unchanged, shifts the moving canvas by `n` along y, and folds
into every accumulator cell the pointwise minimum of the `n` smoothed
per-shift difference maps, in iteration order. -/
theorem slowInnerSpec (img1 img2 : Img) (bg : Nat) (clock : Nat → ℚ) (timeout : ℚ) :
    ∀ (n : Nat) (s : SlowState) (sx1 sy1 sx2 sy2 : Int),
      CanvasInv img1 img2 bg s sx1 sy1 sx2 sy2 →
      (∀ k, s.pos < k → k ≤ s.pos + n → timerFires timeout (clock k) = false) →
      ∃ s', slowInner img1 img2 clock timeout n s = .ok s' ∧
        s'.pos = s.pos + n ∧
        s'.acc.width = s.acc.width ∧ s'.acc.height = s.acc.height ∧
        CanvasInv img1 img2 bg s' sx1
          (sy1 + if img1.height > img2.height then 0 else (n : Int)) sx2
          (sy2 + if img1.height > img2.height then (n : Int) else 0) ∧
        (∀ i j, s'.acc.pix i j =
          ((List.range n).map fun (y : Nat) => (shiftedThis img1 img2 bg sx1
            (sy1 + if img1.height > img2.height then 0 else (y : Int)) sx2
            (sy2 + if img1.height > img2.height then (y : Int) else 0)).pix i j).foldl
            min (s.acc.pix i j))
  | 0, s, sx1, sy1, sx2, sy2, hinv, _ => by
    refine ⟨s, rfl, by omega, rfl, rfl, ?_, ?_⟩
    · have e1 : (sy1 + if img1.height > img2.height then 0 else ((0 : Nat) : Int)) = sy1 := by
        simp
      have e2 : (sy2 + if img1.height > img2.height then ((0 : Nat) : Int) else 0) = sy2 := by
        simp
      rw [e1, e2]
      exact hinv
    · intro i j
      simp
  | n + 1, s, sx1, sy1, sx2, sy2, hinv, hnf => by
    have hfire : timerFires timeout (clock (s.pos + 1)) = false :=
      hnf (s.pos + 1) (by omega) (by omega)
    rw [slowInner, hfire]
    simp only [Bool.false_eq_true, if_false]
    by_cases hh : img1.height > img2.height
    · rw [if_pos hh]
      set t : SlowState := ({ p1 := s.p1, p2 := offsetImg s.p2 0 1, acc := darker s.acc (maxFilter 7 (imageDiffL s.p1 s.p2)), pos := s.pos + 1 } : SlowState) with ht
      have htpos : t.pos = s.pos + 1 := rfl
      have hinv' : CanvasInv img1 img2 bg t sx1 sy1 (sx2 + 0) (sy2 + 1) :=
        canvasInvShift2 img1 img2 bg s sx1 sy1 sx2 sy2 hinv 0 1 t rfl rfl
      rw [add_zero] at hinv'
      obtain ⟨s', hs', hpos, haw, hah, hinv'', hacc⟩ :=
        slowInnerSpec img1 img2 bg clock timeout n t sx1 sy1 sx2 (sy2 + 1) hinv'
          (fun k h1 h2 => hnf k (by rw [htpos] at h1; omega) (by rw [htpos] at h2; omega))
      refine ⟨s', hs', by rw [hpos, htpos]; omega, by rw [haw]; rfl, by rw [hah]; rfl, ?_, ?_⟩
      · simp only [hh, if_true, add_zero] at hinv'' ⊢
        rw [show sy2 + ((n + 1 : Nat) : Int) = sy2 + 1 + (n : Int) by push_cast; ring]
        exact hinv''
      · intro i j
        rw [hacc i j]
        have hbase : t.acc.pix i j = min (s.acc.pix i j)
            ((shiftedThis img1 img2 bg sx1 sy1 sx2 sy2).pix i j) := by
          show min (s.acc.pix i j) ((maxFilter 7 (imageDiffL s.p1 s.p2)).pix i j) = _
          rw [canvasInvThis img1 img2 bg s sx1 sy1 sx2 sy2 hinv i j]
        rw [hbase]
        simp only [foldlMinRangeSucc, Nat.cast_zero, ite_self, add_zero]
        congr 1
        apply List.map_congr_left
        intro y hy
        simp only [hh, if_true, add_zero]
        rw [show sy2 + ((y + 1 : Nat) : Int) = sy2 + 1 + (y : Int) by push_cast; ring]
    · rw [if_neg hh]
      set t : SlowState := ({ p1 := offsetImg s.p1 0 1, p2 := s.p2, acc := darker s.acc (maxFilter 7 (imageDiffL s.p1 s.p2)), pos := s.pos + 1 } : SlowState) with ht
      have htpos : t.pos = s.pos + 1 := rfl
      have hinv' : CanvasInv img1 img2 bg t (sx1 + 0) (sy1 + 1) sx2 sy2 :=
        canvasInvShift1 img1 img2 bg s sx1 sy1 sx2 sy2 hinv 0 1 t rfl rfl
      rw [add_zero] at hinv'
      obtain ⟨s', hs', hpos, haw, hah, hinv'', hacc⟩ :=
        slowInnerSpec img1 img2 bg clock timeout n t sx1 (sy1 + 1) sx2 sy2 hinv'
          (fun k h1 h2 => hnf k (by rw [htpos] at h1; omega) (by rw [htpos] at h2; omega))
      refine ⟨s', hs', by rw [hpos, htpos]; omega, by rw [haw]; rfl, by rw [hah]; rfl, ?_, ?_⟩
      · simp only [hh, if_false, add_zero] at hinv'' ⊢
        rw [show sy1 + ((n + 1 : Nat) : Int) = sy1 + 1 + (n : Int) by push_cast; ring]
        exact hinv''
      · intro i j
        rw [hacc i j]
        have hbase : t.acc.pix i j = min (s.acc.pix i j)
            ((shiftedThis img1 img2 bg sx1 sy1 sx2 sy2).pix i j) := by
          show min (s.acc.pix i j) ((maxFilter 7 (imageDiffL s.p1 s.p2)).pix i j) = _
          rw [canvasInvThis img1 img2 bg s sx1 sy1 sx2 sy2 hinv i j]
        rw [hbase]
        simp only [foldlMinRangeSucc, Nat.cast_zero, ite_self, add_zero]
        congr 1
        apply List.map_congr_left
        intro y hy
        simp only [hh, if_false, add_zero]
        rw [show sy1 + ((y + 1 : Nat) : Int) = sy1 + 1 + (y : Int) by push_cast; ring]

theorem slowResetAcc (img1 img2 : Img) (yr : Nat) (s1 : SlowState) :
    (slowReset img1 img2 yr s1).acc = s1.acc := by
  rw [slowReset]
  by_cases hw : img1.width > img2.width <;> by_cases hh : img1.height > img2.height <;>
    simp [hw, hh]

/-- The shift resets at the end of an inner pass take a state whose moving
canvas has accumulated a y-shift of `yr` back to y-shift 0, and advance the
x-shift of the wider image's canvas by one. -/
theorem canvasInvReset (img1 img2 : Img) (bg : Nat) (yr : Nat) (s1 : SlowState)
    (sx1 sy1 sx2 sy2 : Int)
    (h : CanvasInv img1 img2 bg s1 sx1
      (sy1 + if img1.height > img2.height then 0 else (yr : Int)) sx2
      (sy2 + if img1.height > img2.height then (yr : Int) else 0)) :
    CanvasInv img1 img2 bg (slowReset img1 img2 yr s1)
      (sx1 + if img1.width > img2.width then 0 else 1) sy1
      (sx2 + if img1.width > img2.width then 1 else 0) sy2 := by
  by_cases hh : img1.height > img2.height
  · simp only [hh, if_true, add_zero] at h
    have h2 : CanvasInv img1 img2 bg
        { p1 := s1.p1, p2 := offsetImg s1.p2 0 (-(yr : Int)), acc := s1.acc, pos := s1.pos }
        sx1 sy1 (sx2 + 0) ((sy2 + (yr : Int)) + (-(yr : Int))) :=
      canvasInvShift2 img1 img2 bg s1 sx1 sy1 sx2 (sy2 + (yr : Int)) h 0 (-(yr : Int))
        { p1 := s1.p1, p2 := offsetImg s1.p2 0 (-(yr : Int)), acc := s1.acc, pos := s1.pos }
        rfl rfl
    rw [add_zero, show (sy2 + (yr : Int)) + (-(yr : Int)) = sy2 by ring] at h2
    by_cases hw : img1.width > img2.width
    · simp only [hw, if_true, add_zero]
      have hr : slowReset img1 img2 yr s1 =
          { p1 := s1.p1, p2 := offsetImg (offsetImg s1.p2 0 (-(yr : Int))) 1 0,
            acc := s1.acc, pos := s1.pos } := by
        rw [slowReset]
        simp [hh, hw]
      rw [hr]
      have hres := canvasInvShift2 img1 img2 bg
        { p1 := s1.p1, p2 := offsetImg s1.p2 0 (-(yr : Int)), acc := s1.acc, pos := s1.pos }
        sx1 sy1 sx2 sy2 h2 1 0
        { p1 := s1.p1, p2 := offsetImg (offsetImg s1.p2 0 (-(yr : Int))) 1 0,
          acc := s1.acc, pos := s1.pos } rfl rfl
      rw [add_zero] at hres
      exact hres
    · simp only [hw, if_false, add_zero]
      have hr : slowReset img1 img2 yr s1 =
          { p1 := offsetImg s1.p1 1 0, p2 := offsetImg s1.p2 0 (-(yr : Int)),
            acc := s1.acc, pos := s1.pos } := by
        rw [slowReset]
        simp [hh, hw]
      rw [hr]
      have hres := canvasInvShift1 img1 img2 bg
        { p1 := s1.p1, p2 := offsetImg s1.p2 0 (-(yr : Int)), acc := s1.acc, pos := s1.pos }
        sx1 sy1 sx2 sy2 h2 1 0
        { p1 := offsetImg s1.p1 1 0, p2 := offsetImg s1.p2 0 (-(yr : Int)),
          acc := s1.acc, pos := s1.pos } rfl rfl
      rw [add_zero] at hres
      exact hres
  · simp only [hh, if_false, add_zero] at h
    have h2 : CanvasInv img1 img2 bg
        { p1 := offsetImg s1.p1 0 (-(yr : Int)), p2 := s1.p2, acc := s1.acc, pos := s1.pos }
        (sx1 + 0) ((sy1 + (yr : Int)) + (-(yr : Int))) sx2 sy2 :=
      canvasInvShift1 img1 img2 bg s1 sx1 (sy1 + (yr : Int)) sx2 sy2 h 0 (-(yr : Int))
        { p1 := offsetImg s1.p1 0 (-(yr : Int)), p2 := s1.p2, acc := s1.acc, pos := s1.pos }
        rfl rfl
    rw [add_zero, show (sy1 + (yr : Int)) + (-(yr : Int)) = sy1 by ring] at h2
    by_cases hw : img1.width > img2.width
    · simp only [hw, if_true, add_zero]
      have hr : slowReset img1 img2 yr s1 =
          { p1 := offsetImg s1.p1 0 (-(yr : Int)), p2 := offsetImg s1.p2 1 0,
            acc := s1.acc, pos := s1.pos } := by
        rw [slowReset]
        simp [hh, hw]
      rw [hr]
      have hres := canvasInvShift2 img1 img2 bg
        { p1 := offsetImg s1.p1 0 (-(yr : Int)), p2 := s1.p2, acc := s1.acc, pos := s1.pos }
        sx1 sy1 sx2 sy2 h2 1 0
        { p1 := offsetImg s1.p1 0 (-(yr : Int)), p2 := offsetImg s1.p2 1 0,
          acc := s1.acc, pos := s1.pos } rfl rfl
      rw [add_zero] at hres
      exact hres
    · simp only [hw, if_false, add_zero]
      have hr : slowReset img1 img2 yr s1 =
          { p1 := offsetImg (offsetImg s1.p1 0 (-(yr : Int))) 1 0, p2 := s1.p2,
            acc := s1.acc, pos := s1.pos } := by
        rw [slowReset]
        simp [hh, hw]
      rw [hr]
      have hres := canvasInvShift1 img1 img2 bg
        { p1 := offsetImg s1.p1 0 (-(yr : Int)), p2 := s1.p2, acc := s1.acc, pos := s1.pos }
        sx1 sy1 sx2 sy2 h2 1 0
        { p1 := offsetImg (offsetImg s1.p1 0 (-(yr : Int))) 1 0, p2 := s1.p2,
          acc := s1.acc, pos := s1.pos } rfl rfl
      rw [add_zero] at hres
      exact hres

theorem flatMapMap {α β γ : Type} (g : α → β) (f : β → List γ) :
    ∀ l : List α, (l.map g).flatMap f = l.flatMap fun a => f (g a)
  | [] => rfl
  | a :: t => by
    rw [List.map_cons, List.flatMap_cons, List.flatMap_cons, flatMapMap g f t]

theorem flatMapCongr {α β : Type} :
    ∀ (l : List α) (f g : α → List β), (∀ a ∈ l, f a = g a) → l.flatMap f = l.flatMap g
  | [], _, _, _ => rfl
  | a :: t, f, g, h => by
    rw [List.flatMap_cons, List.flatMap_cons, h a (List.mem_cons_self a t),
      flatMapCongr t f g fun b hb => h b (List.mem_cons_of_mem a hb)]

theorem foldlMinGridSucc (f : Nat → Nat → Nat) (n m a : Nat) :
    (((List.range (n + 1)).flatMap fun x => (List.range m).map (f x)).foldl min a) =
      (((List.range n).flatMap fun x => (List.range m).map (f (x + 1))).foldl min
        (((List.range m).map (f 0)).foldl min a)) := by
  rw [List.range_succ_eq_map, List.flatMap_cons, List.foldl_append, flatMapMap]

/-- Full specification of the outer sweep of `slow_highlight`: absent a
timeout it succeeds, advances the position by `n * yr`, keeps the
accumulator dimensions, shifts the wider image's canvas by `n` along x
(with all y-shifts reset), and folds into every accumulator cell the
pointwise minimum of the smoothed per-offset difference maps over the whole
grid, in iteration order (`x` outer, `y` inner). -/
theorem slowOuterSpec (img1 img2 : Img) (bg : Nat) (clock : Nat → ℚ) (timeout : ℚ) (yr : Nat) :
    ∀ (n : Nat) (s : SlowState) (sx1 sy1 sx2 sy2 : Int),
      CanvasInv img1 img2 bg s sx1 sy1 sx2 sy2 →
      (∀ k, s.pos < k → k ≤ s.pos + n * yr → timerFires timeout (clock k) = false) →
      ∃ s', slowOuter img1 img2 clock timeout yr n s = .ok s' ∧
        s'.pos = s.pos + n * yr ∧
        s'.acc.width = s.acc.width ∧ s'.acc.height = s.acc.height ∧
        CanvasInv img1 img2 bg s'
          (sx1 + if img1.width > img2.width then 0 else (n : Int)) sy1
          (sx2 + if img1.width > img2.width then (n : Int) else 0) sy2 ∧
        (∀ i j, s'.acc.pix i j =
          ((List.range n).flatMap fun (x : Nat) => (List.range yr).map fun (y : Nat) =>
            (shiftedThis img1 img2 bg
              (sx1 + if img1.width > img2.width then 0 else (x : Int))
              (sy1 + if img1.height > img2.height then 0 else (y : Int))
              (sx2 + if img1.width > img2.width then (x : Int) else 0)
              (sy2 + if img1.height > img2.height then (y : Int) else 0)).pix i j).foldl
            min (s.acc.pix i j))
  | 0, s, sx1, sy1, sx2, sy2, hinv, _ => by
    refine ⟨s, rfl, by omega, rfl, rfl, ?_, ?_⟩
    · rw [show (sx1 + if img1.width > img2.width then 0 else ((0 : Nat) : Int)) = sx1 by simp,
        show (sx2 + if img1.width > img2.width then ((0 : Nat) : Int) else 0) = sx2 by simp]
      exact hinv
    · intro i j
      simp
  | n + 1, s, sx1, sy1, sx2, sy2, hinv, hnf => by
    have hmul : (n + 1) * yr = yr + n * yr := by
      rw [Nat.succ_mul]
      omega
    obtain ⟨s1, hs1, hpos1, haw1, hah1, hinv1, hacc1⟩ :=
      slowInnerSpec img1 img2 bg clock timeout yr s sx1 sy1 sx2 sy2 hinv
        (fun k h1 h2 => hnf k h1 (by omega))
    rw [slowOuter, hs1]
    have hinv2 := canvasInvReset img1 img2 bg yr s1 sx1 sy1 sx2 sy2 hinv1
    have hrpos : (slowReset img1 img2 yr s1).pos = s1.pos := slowResetPos img1 img2 yr s1
    have hracc : (slowReset img1 img2 yr s1).acc = s1.acc := slowResetAcc img1 img2 yr s1
    obtain ⟨s', hs', hpos', haw', hah', hinv', hacc'⟩ :=
      slowOuterSpec img1 img2 bg clock timeout yr n (slowReset img1 img2 yr s1)
        (sx1 + if img1.width > img2.width then 0 else 1) sy1
        (sx2 + if img1.width > img2.width then 1 else 0) sy2 hinv2
        (fun k h1 h2 => hnf k (by rw [hrpos, hpos1] at h1; omega)
          (by rw [hrpos, hpos1] at h2; omega))
    refine ⟨s', hs', by rw [hpos', hrpos, hpos1]; omega, ?_, ?_, ?_, ?_⟩
    · rw [haw', hracc, haw1]
    · rw [hah', hracc, hah1]
    · by_cases hw : img1.width > img2.width
      · simp only [hw, if_true, add_zero] at hinv' ⊢
        rw [show sx2 + ((n + 1 : Nat) : Int) = sx2 + 1 + (n : Int) by push_cast; ring]
        exact hinv'
      · simp only [hw, if_false, add_zero] at hinv' ⊢
        rw [show sx1 + ((n + 1 : Nat) : Int) = sx1 + 1 + (n : Int) by push_cast; ring]
        exact hinv'
    · intro i j
      rw [hacc' i j, hracc, hacc1 i j]
      simp only [foldlMinGridSucc, Nat.cast_zero, ite_self, add_zero]
      congr 1
      apply flatMapCongr
      intro x hx
      apply List.map_congr_left
      intro y hy
      by_cases hw : img1.width > img2.width
      · simp only [hw, if_true, add_zero]
        rw [show sx2 + ((x + 1 : Nat) : Int) = sx2 + 1 + (x : Int) by push_cast; ring]
      · simp only [hw, if_false, add_zero]
        rw [show sx1 + ((x + 1 : Nat) : Int) = sx1 + 1 + (x : Int) by push_cast; ring]

/-- C7: in thorough mode the accumulator starts all-255, each per-offset
update (`ImageChops.darker`) can only decrease a cell, and after the full
sweep — before the final 5-wide max filter and cropping — every in-canvas
cell equals the minimum, over all `(|w1-w2|+1) * (|h1-h2|+1)` grid offsets,
of the 7-wide max-filtered difference of the two background-padded,
per-offset cyclically shifted canvases. -/
theorem claimC7_accumulator (img1 img2 : Img) (bg : Nat) (clock : Nat → ℚ) (timeout : ℚ)
    (h1 : img1.valid) (h2 : img2.valid) (hbg : bg ≤ 255)
    (hnf : ∀ k, 1 ≤ k →
      k ≤ (natAbsDiff img1.width img2.width + 1) * (natAbsDiff img1.height img2.height + 1) →
      timerFires timeout (clock k) = false) :
    (∀ i j, (slowInit img1 img2 bg).acc.pix i j = 255) ∧
    (∀ (a t : Img) (i j : Nat), (darker a t).pix i j ≤ a.pix i j) ∧
    (∃ s', slowOuter img1 img2 clock timeout (natAbsDiff img1.height img2.height + 1)
        (natAbsDiff img1.width img2.width + 1) (slowInit img1 img2 bg) = .ok s' ∧
      ∀ i < max img1.width img2.width, ∀ j < max img1.height img2.height,
        (∀ x < natAbsDiff img1.width img2.width + 1,
          ∀ y < natAbsDiff img1.height img2.height + 1,
          s'.acc.pix i j ≤ (slowThisAt img1 img2 bg x y).pix i j) ∧
        (∃ x < natAbsDiff img1.width img2.width + 1,
          ∃ y < natAbsDiff img1.height img2.height + 1,
          s'.acc.pix i j = (slowThisAt img1 img2 bg x y).pix i j)) := by
  refine ⟨fun i j => rfl, fun a t i j => Nat.min_le_left _ _, ?_⟩
  have hinv0 : CanvasInv img1 img2 bg (slowInit img1 img2 bg) 0 0 0 0 := by
    refine ⟨rfl, rfl, rfl, rfl, ?_, ?_⟩
    · intro i hi j hj
      exact (offsetImgZero (pimg1 img1 img2 bg) i j hi hj).symm
    · intro i hi j hj
      exact (offsetImgZero (pimg2 img1 img2 bg) i j hi hj).symm
  have hpos0 : (slowInit img1 img2 bg).pos = 0 := rfl
  obtain ⟨s', hs', _, _, _, _, hacc⟩ :=
    slowOuterSpec img1 img2 bg clock timeout (natAbsDiff img1.height img2.height + 1)
      (natAbsDiff img1.width img2.width + 1) (slowInit img1 img2 bg) 0 0 0 0 hinv0
      (fun k hk1 hk2 => hnf k (by rw [hpos0] at hk1; omega) (by rw [hpos0] at hk2; omega))
  simp only [zero_add] at hacc
  have hbase : ∀ i j : Nat, (slowInit img1 img2 bg).acc.pix i j = 255 := fun i j => rfl
  refine ⟨s', hs', ?_⟩
  intro i hi j hj
  have haccij :
      s'.acc.pix i j =
        ((List.range (natAbsDiff img1.width img2.width + 1)).flatMap
          fun (x : Nat) => (List.range (natAbsDiff img1.height img2.height + 1)).map
            fun (y : Nat) => (slowThisAt img1 img2 bg x y).pix i j).foldl min 255 := by
    rw [hacc i j, hbase i j]
    rfl
  constructor
  · intro x hx y hy
    rw [haccij]
    refine foldlMinLeMem _ _ _ ?_
    exact (gridMem (fun x y => (slowThisAt img1 img2 bg x y).pix i j) _ _ _).mpr
      ⟨x, hx, y, hy, rfl⟩
  · rcases foldlMinCases ((List.range (natAbsDiff img1.width img2.width + 1)).flatMap
        fun (x : Nat) => (List.range (natAbsDiff img1.height img2.height + 1)).map
          fun (y : Nat) => (slowThisAt img1 img2 bg x y).pix i j) 255 with hc | ⟨v, hv, he⟩
    · -- the fold kept its 255 start: then the first grid value is itself 255
      have hmem : (slowThisAt img1 img2 bg 0 0).pix i j ∈
          ((List.range (natAbsDiff img1.width img2.width + 1)).flatMap
            fun (x : Nat) => (List.range (natAbsDiff img1.height img2.height + 1)).map
              fun (y : Nat) => (slowThisAt img1 img2 bg x y).pix i j) :=
        (gridMem (fun x y => (slowThisAt img1 img2 bg x y).pix i j) _ _ _).mpr
          ⟨0, by omega, 0, by omega, rfl⟩
      have hle := foldlMinLeMem _ 255 _ hmem
      have hv255 : (slowThisAt img1 img2 bg 0 0).pix i j ≤ 255 :=
        shiftedThisLe img1 img2 bg _ _ _ _ h1 h2 hbg i j
      refine ⟨0, by omega, 0, by omega, ?_⟩
      rw [haccij]
      omega
    · obtain ⟨x, hx, y, hy, rfl⟩ :=
        (gridMem (fun x y => (slowThisAt img1 img2 bg x y).pix i j) _ _ _).mp hv
      exact ⟨x, hx, y, hy, by rw [haccij]; exact he⟩

theorem claimC7_accumulator_witness :
    ((newL 2 1 5).valid ∧ (newL 1 1 3).valid ∧ (7 : Nat) ≤ 255) ∧
    ((∀ i j, (slowInit (newL 2 1 5) (newL 1 1 3) 7).acc.pix i j = 255) ∧
    (∀ (a t : Img) (i j : Nat), (darker a t).pix i j ≤ a.pix i j) ∧
    (∃ s', slowOuter (newL 2 1 5) (newL 1 1 3) (fun _ => (0 : ℚ)) 0
        (natAbsDiff (newL 2 1 5).height (newL 1 1 3).height + 1)
        (natAbsDiff (newL 2 1 5).width (newL 1 1 3).width + 1)
        (slowInit (newL 2 1 5) (newL 1 1 3) 7) = .ok s' ∧
      ∀ i < max (newL 2 1 5).width (newL 1 1 3).width,
        ∀ j < max (newL 2 1 5).height (newL 1 1 3).height,
        (∀ x < natAbsDiff (newL 2 1 5).width (newL 1 1 3).width + 1,
          ∀ y < natAbsDiff (newL 2 1 5).height (newL 1 1 3).height + 1,
          s'.acc.pix i j ≤ (slowThisAt (newL 2 1 5) (newL 1 1 3) 7 x y).pix i j) ∧
        (∃ x < natAbsDiff (newL 2 1 5).width (newL 1 1 3).width + 1,
          ∃ y < natAbsDiff (newL 2 1 5).height (newL 1 1 3).height + 1,
          s'.acc.pix i j = (slowThisAt (newL 2 1 5) (newL 1 1 3) 7 x y).pix i j))) :=
  ⟨⟨by decide, by decide, by decide⟩,
    claimC7_accumulator (newL 2 1 5) (newL 1 1 3) 7 (fun _ => (0 : ℚ)) 0
      (by decide) (by decide) (by decide) (fun _ _ _ => timerNeverFiresZero 0)⟩

end Imgdiff
